import Mathlib

/-!
# Verification of the slashmail IMAP query engine (`src/search.rs`, `src/connection.rs`)

Shallow embedding of the query compiler, UID set encoder, search executor,
multi-mailbox aggregator and capability-aware mutation fallback.

Conventions:
* Rust `String`/`&str` values are modelled as `List Char` (`Str`); for the
  ASCII protocol strings manipulated here, Rust's byte-based `len`/indexing
  agrees with character counts.
* Rust `u32`/`u64`/`usize` are modelled as `Nat` with explicit `< 2 ^ 32` /
  `< 2 ^ 64` bounds where overflow matters; `i64` is modelled as `Int`
  (Rust `/` and `%` on `i64` are `Int.tdiv` / `Int.tmod`).
* Fallible Rust functions (`anyhow::Result`) are modelled as `Except Str`
  carrying the error message.
* The stateful IMAP session is modelled as a record of response functions
  (`SessionModel`); embedded operations additionally return the list of
  protocol commands they issued, in order.
-/

namespace Slashmail

/-- Rust strings, modelled as character lists. -/
abbrev Str := List Char

/-- Embeds Rust `char::is_control` (Unicode category Cc:
`U+0000..U+001F` and `U+007F..U+009F`). -/
def isControlChar (c : Char) : Bool :=
  c.val < 0x20 || (0x7f ≤ c.val && c.val ≤ 0x9f)

/-- `sanitize` from `src/search.rs`: strip CRLF and control chars to
prevent IMAP command injection. -/
def sanitize (s : Str) : Str :=
  s.filter (fun c => !isControlChar c)

/-- The `.replace('\\', "\\\\")` step of `imap_quote`. -/
def replaceBackslash (s : Str) : Str :=
  s.flatMap (fun c => if c = '\\' then ['\\', '\\'] else [c])

/-- The `.replace('"', "\\\"")` step of `imap_quote`. -/
def replaceQuote (s : Str) : Str :=
  s.flatMap (fun c => if c = '"' then ['\\', '"'] else [c])

/-- `imap_quote` from `src/search.rs`: sanitize, escape backslashes and
double quotes, wrap in double quotes. -/
def imap_quote (s : Str) : Str :=
  let clean := sanitize s
  let escaped := replaceQuote (replaceBackslash clean)
  '"' :: (escaped ++ ['"'])

/-- Spec-side decoder for the quoting round trip: undo the
backslash escapes (`\x` stands for the literal `x`). -/
def unescape : Str → Str
  | [] => []
  | [c] => [c]
  | c :: c2 :: rest =>
    if c = '\\' then c2 :: unescape rest else c :: unescape (c2 :: rest)

theorem unescape_cons_of_ne {c : Char} (t : Str) (h : c ≠ '\\') :
    unescape (c :: t) = c :: unescape t := by
  cases t with
  | nil => rfl
  | cons d t' => simp [unescape, h]

theorem replaceBackslash_cons (c : Char) (s : Str) :
    replaceBackslash (c :: s) =
      (if c = '\\' then ['\\', '\\'] else [c]) ++ replaceBackslash s := rfl

theorem replaceQuote_cons (c : Char) (s : Str) :
    replaceQuote (c :: s) =
      (if c = '"' then ['\\', '"'] else [c]) ++ replaceQuote s := rfl

theorem replaceQuote_append (a b : Str) :
    replaceQuote (a ++ b) = replaceQuote a ++ replaceQuote b :=
  List.flatMap_append a b _

theorem mem_replaceBackslash {c : Char} {s : Str} (h : c ∈ replaceBackslash s) :
    c = '\\' ∨ c ∈ s := by
  rcases List.mem_flatMap.1 h with ⟨a, ha, hc⟩
  by_cases hb : a = '\\'
  · rw [if_pos hb] at hc
    simp at hc
    exact Or.inl hc
  · rw [if_neg hb] at hc
    simp at hc
    subst hc
    exact Or.inr ha

theorem mem_replaceQuote {c : Char} {s : Str} (h : c ∈ replaceQuote s) :
    c = '\\' ∨ c ∈ s := by
  rcases List.mem_flatMap.1 h with ⟨a, ha, hc⟩
  by_cases hb : a = '"'
  · rw [if_pos hb] at hc
    simp at hc
    rcases hc with h1 | h1
    · exact Or.inl h1
    · subst h1; subst hb; exact Or.inr ha
  · rw [if_neg hb] at hc
    simp at hc
    subst hc
    exact Or.inr ha

theorem sanitize_not_control {c : Char} {s : Str} (h : c ∈ sanitize s) :
    isControlChar c = false := by
  have := List.of_mem_filter h
  simpa using this

theorem unescape_escape (l : Str) :
    unescape (replaceQuote (replaceBackslash l)) = l := by
  induction l with
  | nil => rfl
  | cons c rest ih =>
    by_cases hb : c = '\\'
    · subst hb
      rw [replaceBackslash_cons, if_pos rfl, replaceQuote_append,
        show replaceQuote ['\\', '\\'] = ['\\', '\\'] from rfl]
      simp [unescape, ih]
    · by_cases hq : c = '"'
      · subst hq
        rw [replaceBackslash_cons, if_neg hb, replaceQuote_append,
          show replaceQuote ['"'] = ['\\', '"'] from rfl]
        simp [unescape, ih]
      · rw [replaceBackslash_cons, if_neg hb, replaceQuote_append,
          show ∀ c, replaceQuote [c] = (if c = '"' then ['\\', '"'] else [c]) from
            fun c => by simp [replaceQuote], if_neg hq]
        rw [List.singleton_append, unescape_cons_of_ne _ hb, ih]

/-- C2: `imap_quote` first strips all control characters and then escapes:
the result is the sanitized string wrapped in double quotes with internal
backslashes and quotes escaped; it contains no raw control characters, and
removing the wrapping quotes and undoing the escapes recovers exactly the
control-stripped original. -/
theorem imap_quote_sanitizes_escapes_and_round_trips (s : Str) :
    (imap_quote s).head? = some '"' ∧
    (imap_quote s).getLast? = some '"' ∧
    (∀ c ∈ imap_quote s, isControlChar c = false) ∧
    unescape (((imap_quote s).drop 1).dropLast) = sanitize s := by
  refine ⟨rfl, ?_, ?_, ?_⟩
  · show (('"' :: (replaceQuote (replaceBackslash (sanitize s)) ++ ['"'])).getLast?) = some '"'
    rw [List.getLast?_cons]
    simp [List.getLastD_concat]
  · intro c hc
    have hc' : c ∈ '"' :: (replaceQuote (replaceBackslash (sanitize s)) ++ ['"']) := hc
    rcases List.mem_cons.1 hc' with h1 | h1
    · subst h1; decide
    · rcases List.mem_append.1 h1 with h2 | h2
      · rcases mem_replaceQuote h2 with h3 | h3
        · subst h3; decide
        · rcases mem_replaceBackslash h3 with h4 | h4
          · subst h4; decide
          · exact sanitize_not_control h4
      · simp at h2; subst h2; decide
  · show unescape ((('"' :: (replaceQuote (replaceBackslash (sanitize s)) ++ ['"'])).drop 1).dropLast)
      = sanitize s
    rw [List.drop_one, List.tail_cons, List.dropLast_concat]
    exact unescape_escape (sanitize s)

theorem imap_quote_sanitizes_escapes_and_round_trips_witness :
    isControlChar '\\' = false ∧
    unescape (((imap_quote ("a\\b\"c\n".data)).drop 1).dropLast) =
      sanitize ("a\\b\"c\n".data) :=
  ⟨(imap_quote_sanitizes_escapes_and_round_trips ("a\\b\"c\n".data)).2.2.1
      '\\' (by decide),
   (imap_quote_sanitizes_escapes_and_round_trips ("a\\b\"c\n".data)).2.2.2⟩

/-! ## Decimal formatting and parsing

`natDigits` embeds Rust's `Display` for unsigned integers (`format!("{n}")`):
decimal digits, most significant first, no leading zeros, `"0"` for zero.
It is written with an explicit recursion-depth bound (any bound `> n`
computes the same list) so that it is structurally recursive. -/

/-- Decimal digit character: `digitChar d` for `d < 10` is `'0'..'9'`. -/
def digitChar (d : Nat) : Char := Char.ofNat (48 + d)

/-- Value of a decimal digit character, `none` for non-digits. -/
def digitVal? (c : Char) : Option Nat :=
  if 48 ≤ c.val ∧ c.val ≤ 57 then some (c.toNat - 48) else none

def natDigitsFuel : Nat → Nat → Str
  | 0, _ => []
  | fuel + 1, n =>
    if n < 10 then [digitChar n]
    else natDigitsFuel fuel (n / 10) ++ [digitChar (n % 10)]

/-- Embeds Rust `format!("{n}")` for unsigned integers. -/
def natDigits (n : Nat) : Str := natDigitsFuel (n + 1) n

/-- Embeds Rust `format!("{i}")` for signed integers. -/
def intDigits (i : Int) : Str :=
  if i < 0 then '-' :: natDigits (-i).toNat else natDigits i.toNat

/-- Embeds Rust `format!("{n:02}")`. -/
def pad2 (n : Nat) : Str := if n < 10 then '0' :: natDigits n else natDigits n

/-- Parser accumulator for a run of decimal digits
(embeds the digit loop of Rust `str::parse` for unsigned integers). -/
def parseDigitsAux : Str → Nat → Option Nat
  | [], acc => some acc
  | c :: rest, acc =>
    match digitVal? c with
    | some d => parseDigitsAux rest (acc * 10 + d)
    | none => none

/-- Parse a non-empty all-digit string to its value. -/
def parseDigits : Str → Option Nat
  | [] => none
  | c :: rest => parseDigitsAux (c :: rest) 0

theorem natDigitsFuel_congr :
    ∀ f g n, n < f → n < g → natDigitsFuel f n = natDigitsFuel g n := by
  intro f
  induction f with
  | zero => intro g n hf; omega
  | succ f ih =>
    intro g n hf hg
    cases g with
    | zero => omega
    | succ g =>
      by_cases h : n < 10
      · simp [natDigitsFuel, h]
      · have h10 : 10 ≤ n := by omega
        have hd : n / 10 < n := Nat.div_lt_self (by omega) (by omega)
        simp only [natDigitsFuel, if_neg h]
        rw [ih g (n / 10) (by omega) (by omega)]

theorem natDigitsFuel_succ (fuel n : Nat) :
    natDigitsFuel (fuel + 1) n = if n < 10 then [digitChar n]
      else natDigitsFuel fuel (n / 10) ++ [digitChar (n % 10)] := rfl

theorem natDigits_eq (n : Nat) :
    natDigits n = if n < 10 then [digitChar n]
      else natDigits (n / 10) ++ [digitChar (n % 10)] := by
  show natDigitsFuel (n + 1) n = _
  rw [natDigitsFuel_succ]
  by_cases h : n < 10
  · simp [h]
  · have hd : n / 10 < n := Nat.div_lt_self (by omega) (by omega)
    rw [if_neg h, if_neg h,
      natDigitsFuel_congr n (n / 10 + 1) (n / 10) (by omega) (by omega)]
    rfl

theorem digitVal?_digitChar {d : Nat} (h : d < 10) :
    digitVal? (digitChar d) = some d := by
  interval_cases d <;> decide

theorem natDigits_all_digit (n : Nat) :
    ∀ c ∈ natDigits n, ∃ d, d < 10 ∧ c = digitChar d := by
  induction n using Nat.strong_induction_on with
  | _ n ih =>
    rw [natDigits_eq]
    by_cases h : n < 10
    · rw [if_pos h]
      intro c hc
      simp at hc
      exact ⟨n, h, hc⟩
    · rw [if_neg h]
      intro c hc
      rcases List.mem_append.1 hc with h1 | h1
      · exact ih (n / 10) (Nat.div_lt_self (by omega) (by omega)) c h1
      · simp at h1
        exact ⟨n % 10, Nat.mod_lt n (by omega), h1⟩

theorem natDigits_ne_nil (n : Nat) : natDigits n ≠ [] := by
  rw [natDigits_eq]
  by_cases h : n < 10 <;> simp [h]

theorem parseDigitsAux_append (a b : Str) (acc : Nat) :
    parseDigitsAux (a ++ b) acc =
      match parseDigitsAux a acc with
      | some v => parseDigitsAux b v
      | none => none := by
  induction a generalizing acc with
  | nil => simp [parseDigitsAux]
  | cons c rest ih =>
    simp only [List.cons_append, parseDigitsAux]
    cases digitVal? c with
    | some d => exact ih _
    | none => rfl

theorem parseDigitsAux_natDigits (n : Nat) :
    ∀ acc, parseDigitsAux (natDigits n) acc =
      some (acc * 10 ^ (natDigits n).length + n) := by
  induction n using Nat.strong_induction_on with
  | _ n ih =>
    intro acc
    rw [natDigits_eq]
    by_cases h : n < 10
    · rw [if_pos h]
      simp [parseDigitsAux, digitVal?_digitChar h]
    · rw [if_neg h]
      rw [parseDigitsAux_append]
      rw [ih (n / 10) (Nat.div_lt_self (by omega) (by omega)) acc]
      simp only [parseDigitsAux, digitVal?_digitChar (Nat.mod_lt n (by omega))]
      have : (acc * 10 ^ (natDigits (n / 10)).length + n / 10) * 10 + n % 10 =
          acc * 10 ^ ((natDigits (n / 10)).length + 1) + n := by
        rw [pow_succ]
        have := Nat.div_add_mod n 10
        ring_nf
        omega
      simp [this]

theorem parseDigits_natDigits (n : Nat) : parseDigits (natDigits n) = some n := by
  have h := parseDigitsAux_natDigits n 0
  rcases hne : natDigits n with _ | ⟨c, rest⟩
  · exact absurd hne (natDigits_ne_nil n)
  · rw [hne] at h
    simpa [parseDigits] using h

theorem natDigits_length_le : ∀ k n, n < 10 ^ (k + 1) → (natDigits n).length ≤ k + 1 := by
  intro k
  induction k with
  | zero =>
    intro n h
    rw [natDigits_eq, if_pos (by simpa using h)]
    simp
  | succ k ih =>
    intro n h
    rw [natDigits_eq]
    by_cases h10 : n < 10
    · simp [h10]
    · rw [if_neg h10]
      have : n / 10 < 10 ^ (k + 1) := by
        rw [Nat.div_lt_iff_lt_mul (by omega)]
        calc n < 10 ^ (k + 1 + 1) := h
        _ = 10 ^ (k + 1) * 10 := by ring
      have := ih (n / 10) this
      simp only [List.length_append, List.length_cons, List.length_nil]
      omega

theorem natDigits_length_le_ten {n : Nat} (h : n < 2 ^ 32) : (natDigits n).length ≤ 10 :=
  natDigits_length_le 9 n (by omega)

theorem natDigits_no_comma_colon (n : Nat) :
    (',' ∉ natDigits n) ∧ (':' ∉ natDigits n) := by
  constructor <;> intro hmem <;>
    rcases natDigits_all_digit n _ hmem with ⟨d, hd, hc⟩ <;>
    · interval_cases d <;> simp_all <;> exact absurd hc (by decide)

/-! ## Sorting and deduplication (the `sorted.sort_unstable(); sorted.dedup()`
steps of `build_uid_set`). `sort_unstable` is any ascending sort; it is
modelled by insertion sort. `dedup` removes consecutive duplicates. -/

def insertSorted (x : Nat) : List Nat → List Nat
  | [] => [x]
  | y :: ys => if x ≤ y then x :: y :: ys else y :: insertSorted x ys

/-- Model of Rust `Vec::sort_unstable` (ascending). -/
def sortNat (l : List Nat) : List Nat := l.foldr insertSorted []

/-- Model of Rust `Vec::dedup`: remove consecutive duplicates. -/
def dedupAdj : List Nat → List Nat
  | [] => []
  | [a] => [a]
  | a :: b :: rest => if a = b then dedupAdj (b :: rest) else a :: dedupAdj (b :: rest)

theorem mem_insertSorted {x y : Nat} {l : List Nat} :
    y ∈ insertSorted x l ↔ y = x ∨ y ∈ l := by
  induction l with
  | nil => simp [insertSorted]
  | cons z zs ih =>
    by_cases h : x ≤ z
    · simp [insertSorted, h]
    · simp only [insertSorted, if_neg h, List.mem_cons, ih]
      tauto

theorem sorted_insertSorted {x : Nat} {l : List Nat} (h : l.Sorted (· ≤ ·)) :
    (insertSorted x l).Sorted (· ≤ ·) := by
  induction l with
  | nil => simp [insertSorted]
  | cons z zs ih =>
    rcases List.sorted_cons.1 h with ⟨hz, hzs⟩
    by_cases hle : x ≤ z
    · rw [insertSorted, if_pos hle]
      exact List.sorted_cons.2 ⟨by
        intro b hb
        rcases List.mem_cons.1 hb with h1 | h1
        · omega
        · exact le_trans hle (hz b h1), h⟩
    · rw [insertSorted, if_neg hle]
      refine List.sorted_cons.2 ⟨?_, ih hzs⟩
      intro b hb
      rcases mem_insertSorted.1 hb with h1 | h1
      · omega
      · exact hz b h1

theorem sorted_sortNat (l : List Nat) : (sortNat l).Sorted (· ≤ ·) := by
  induction l with
  | nil => simp [sortNat]
  | cons x xs ih => exact sorted_insertSorted ih

theorem mem_sortNat {x : Nat} {l : List Nat} : x ∈ sortNat l ↔ x ∈ l := by
  induction l with
  | nil => simp [sortNat]
  | cons y ys ih =>
    show x ∈ insertSorted y (sortNat ys) ↔ _
    rw [mem_insertSorted]
    simp [ih]

theorem perm_insertSorted (x : Nat) (l : List Nat) :
    (insertSorted x l).Perm (x :: l) := by
  induction l with
  | nil => simp [insertSorted]
  | cons z zs ih =>
    by_cases h : x ≤ z
    · rw [insertSorted, if_pos h]
    · rw [insertSorted, if_neg h]
      exact (ih.cons z).trans (List.Perm.swap x z zs)

theorem perm_sortNat (l : List Nat) : (sortNat l).Perm l := by
  induction l with
  | nil => simp [sortNat]
  | cons x xs ih =>
    show (insertSorted x (sortNat xs)).Perm _
    exact (perm_insertSorted x (sortNat xs)).trans (ih.cons x)

theorem sortNat_eq_of_perm {l l' : List Nat} (h : l.Perm l') :
    sortNat l = sortNat l' := by
  refine List.eq_of_perm_of_sorted ?_ (sorted_sortNat l) (sorted_sortNat l')
  exact (perm_sortNat l).trans (h.trans (perm_sortNat l').symm)

theorem mem_dedupAdj : ∀ {l : List Nat} {x : Nat}, x ∈ dedupAdj l ↔ x ∈ l := by
  intro l
  induction l with
  | nil => simp [dedupAdj]
  | cons a t ih =>
    intro x
    cases t with
    | nil => simp [dedupAdj]
    | cons b rest =>
      by_cases h : a = b
      · subst h
        rw [dedupAdj, if_pos rfl, ih]
        simp
      · rw [dedupAdj, if_neg h]
        simp [ih]

theorem sorted_dedupAdj : ∀ {l : List Nat}, l.Sorted (· ≤ ·) →
    (dedupAdj l).Sorted (· < ·) := by
  intro l
  induction l with
  | nil => intro; simp [dedupAdj]
  | cons a t ih =>
    intro h
    rcases List.sorted_cons.1 h with ⟨ha, ht⟩
    cases t with
    | nil => simp [dedupAdj]
    | cons b rest =>
      by_cases hab : a = b
      · rw [dedupAdj, if_pos hab]
        exact ih ht
      · rw [dedupAdj, if_neg hab]
        refine List.sorted_cons.2 ⟨?_, ih ht⟩
        intro c hc
        have hc' : c ∈ b :: rest := mem_dedupAdj.1 hc
        have h1 : a ≤ b := ha b (by simp)
        rcases List.mem_cons.1 hc' with h2 | h2
        · omega
        · have := ha c (by simp [h2])
          rcases List.sorted_cons.1 ht with ⟨hb, _⟩
          have := hb c h2
          omega

/-! ## UID set encoder (`build_uid_set` from `src/search.rs`) -/

/-- `MAX_UID_SET_LENGTH` from `src/search.rs`. -/
def MAX_UID_SET_LENGTH : Nat := 4000

/-- The range-building loop of `build_uid_set`: `start`/`e` are the mutable
`start`/`end` of the run under construction, the argument list is the rest
of the sorted deduplicated UIDs. -/
def buildRangesAux (start e : Nat) : List Nat → List (Nat × Nat)
  | [] => [(start, e)]
  | u :: rest =>
    if u = e + 1 then buildRangesAux start u rest
    else (start, e) :: buildRangesAux u u rest

def buildRanges : List Nat → List (Nat × Nat)
  | [] => []
  | u :: rest => buildRangesAux u u rest

/-- Serialization of one range: `"{s}"` for a singleton, `"{s}:{e}"` otherwise. -/
def serializeRange : Nat × Nat → Str
  | (s, e) => if s = e then natDigits s else natDigits s ++ ':' :: natDigits e

/-- The greedy chunk-packing loop of `build_uid_set`: `current` is the chunk
under construction. -/
def chunkAux (current : Str) : List Str → List Str
  | [] => if current = [] then [] else [current]
  | p :: rest =>
    if current = [] then chunkAux p rest
    else if MAX_UID_SET_LENGTH < current.length + 1 + p.length then
      current :: chunkAux p rest
    else chunkAux (current ++ ',' :: p) rest

def chunkParts (parts : List Str) : List Str := chunkAux [] parts

/-- `build_uid_set` from `src/search.rs`: sort, dedup, compress consecutive
runs into ranges, serialize, and greedily pack into chunks of at most
`MAX_UID_SET_LENGTH` characters. -/
def build_uid_set (uids : List Nat) : List Str :=
  if uids = [] then []
  else
    let sorted := dedupAdj (sortNat uids)
    let ranges := buildRanges sorted
    chunkParts (ranges.map serializeRange)

/-! Spec-side decoder for a chunk: split on commas, and expand each token
(`n` singleton, or `n:m` meaning the closed interval). -/

/-- Split a string at every character satisfying `p` (the separators are
dropped; empty fields are kept). Always returns a non-empty list. -/
def splitOnP (p : Char → Bool) : Str → List Str
  | [] => [[]]
  | c :: rest =>
    if p c then [] :: splitOnP p rest
    else
      match splitOnP p rest with
      | t :: ts => (c :: t) :: ts
      | [] => [[c]]

def splitOnChar (sep : Char) : Str → List Str := splitOnP (fun c => c = sep)

/-- Decode one comma-separated token of a UID set chunk. -/
def decodeToken (t : Str) : List Nat :=
  match splitOnChar ':' t with
  | [a] =>
    match parseDigits a with
    | some n => [n]
    | none => []
  | [a, b] =>
    match parseDigits a, parseDigits b with
    | some x, some y => List.range' x (y + 1 - x)
    | _, _ => []
  | _ => []

/-- Decode a chunk string back to the list of UIDs it denotes. -/
def decodeChunk (c : Str) : List Nat :=
  (splitOnChar ',' c).flatMap decodeToken

/-! ### Lemmas about splitting and chunk packing -/

/-- Expansion of one closed range. -/
def expandRange (r : Nat × Nat) : List Nat := List.range' r.1 (r.2 + 1 - r.1)

theorem splitOnP_ne_nil (p : Char → Bool) (l : Str) : splitOnP p l ≠ [] := by
  cases l with
  | nil => simp [splitOnP]
  | cons c rest =>
    by_cases h : p c
    · simp [splitOnP, h]
    · simp only [splitOnP, if_neg h]
      rcases hs : splitOnP p rest with _ | ⟨t, ts⟩ <;> simp

theorem splitOnP_no_sep {p : Char → Bool} {l : Str}
    (h : ∀ c ∈ l, p c = false) : splitOnP p l = [l] := by
  induction l with
  | nil => rfl
  | cons c rest ih =>
    have hc : p c = false := h c (by simp)
    have hr := ih (fun c hc => h c (by simp [hc]))
    simp [splitOnP, hc, hr]

theorem splitOnP_append_sep {p : Char → Bool} {sep : Char} (hsep : p sep = true)
    (a b : Str) : splitOnP p (a ++ sep :: b) = splitOnP p a ++ splitOnP p b := by
  induction a with
  | nil => simp [splitOnP, hsep]
  | cons c rest ih =>
    by_cases h : p c
    · simp [splitOnP, h, ih]
    · rcases hs : splitOnP p rest with _ | ⟨t, ts⟩
      · exact absurd hs (splitOnP_ne_nil p rest)
      · simp only [List.cons_append, splitOnP, if_neg h, List.append_eq]
        rw [ih, hs]
        simp

theorem splitOnChar_no_sep {sep : Char} {l : Str} (h : sep ∉ l) :
    splitOnChar sep l = [l] := by
  refine splitOnP_no_sep ?_
  intro c hc
  simp only [decide_eq_false_iff_not]
  intro he
  exact h (he ▸ hc)

theorem splitOnChar_append (sep : Char) (a b : Str) :
    splitOnChar sep (a ++ sep :: b) = splitOnChar sep a ++ splitOnChar sep b :=
  splitOnP_append_sep (by simp) a b

theorem chunkAux_flat : ∀ (ps : List Str) (cur : Str),
    (∀ p ∈ ps, p ≠ [] ∧ ',' ∉ p) →
    (chunkAux cur ps).flatMap (splitOnChar ',') =
      (if cur = [] then [] else splitOnChar ',' cur) ++ ps := by
  intro ps
  induction ps with
  | nil =>
    intro cur _
    by_cases h : cur = [] <;> simp [chunkAux, h]
  | cons p rest ih =>
    intro cur hps
    rcases hps p (by simp) with ⟨hpn, hpc⟩
    have hrest : ∀ q ∈ rest, q ≠ [] ∧ ',' ∉ q := fun q hq => hps q (by simp [hq])
    by_cases hc : cur = []
    · rw [chunkAux, if_pos hc, ih p hrest, if_neg hpn, if_pos hc,
        splitOnChar_no_sep hpc]
      simp
    · rw [chunkAux, if_neg hc]
      by_cases hover : MAX_UID_SET_LENGTH < cur.length + 1 + p.length
      · rw [if_pos hover]
        simp only [List.flatMap_cons]
        rw [ih p hrest, if_neg hpn, if_neg hc, splitOnChar_no_sep hpc]
        simp
      · rw [if_neg hover, ih (cur ++ ',' :: p) hrest,
          if_neg (by simp), splitOnChar_append, splitOnChar_no_sep hpc,
          if_neg hc]
        simp

theorem chunkAux_length : ∀ (ps : List Str) (cur : Str),
    (∀ p ∈ ps, p.length ≤ MAX_UID_SET_LENGTH) →
    cur.length ≤ MAX_UID_SET_LENGTH →
    ∀ ch ∈ chunkAux cur ps, ch.length ≤ MAX_UID_SET_LENGTH := by
  intro ps
  induction ps with
  | nil =>
    intro cur _ hcur ch hch
    rw [chunkAux] at hch
    by_cases h : cur = []
    · rw [if_pos h] at hch; simp at hch
    · rw [if_neg h] at hch
      simp at hch
      exact hch ▸ hcur
  | cons p rest ih =>
    intro cur hps hcur ch hch
    have hp : p.length ≤ MAX_UID_SET_LENGTH := hps p (by simp)
    have hrest : ∀ q ∈ rest, q.length ≤ MAX_UID_SET_LENGTH :=
      fun q hq => hps q (by simp [hq])
    rw [chunkAux] at hch
    by_cases hc : cur = []
    · rw [if_pos hc] at hch
      exact ih p hrest hp ch hch
    · rw [if_neg hc] at hch
      by_cases hover : MAX_UID_SET_LENGTH < cur.length + 1 + p.length
      · rw [if_pos hover] at hch
        rcases List.mem_cons.1 hch with h1 | h1
        · exact h1 ▸ hcur
        · exact ih p hrest hp ch h1
      · rw [if_neg hover] at hch
        refine ih (cur ++ ',' :: p) hrest ?_ ch hch
        simp only [List.length_append, List.length_cons]
        omega

/-! ### Range-building invariants -/

theorem mem_expandRange {r : Nat × Nat} {x : Nat} (h : r.1 ≤ r.2) :
    x ∈ expandRange r ↔ r.1 ≤ x ∧ x ≤ r.2 := by
  rw [expandRange, List.mem_range'_1]
  omega

theorem buildRangesAux_spec : ∀ (rest : List Nat) (s e : Nat),
    rest.Sorted (· < ·) → (∀ x ∈ rest, e < x) → s ≤ e →
    (buildRangesAux s e rest).flatMap expandRange = List.range' s (e + 1 - s) ++ rest ∧
    (∀ r ∈ buildRangesAux s e rest, s ≤ r.1 ∧ r.1 ≤ r.2) ∧
    (∀ r ∈ buildRangesAux s e rest,
      ∀ x ∈ (buildRangesAux s e rest).flatMap expandRange,
        (x < r.1 → x + 1 < r.1) ∧ (r.2 < x → r.2 + 1 < x)) := by
  intro rest
  induction rest with
  | nil =>
    intro s e _ _ hse
    refine ⟨by simp [buildRangesAux, expandRange], ?_, ?_⟩
    · intro r hr
      simp only [buildRangesAux, List.mem_singleton] at hr
      subst hr
      exact ⟨le_refl s, hse⟩
    · intro r hr x hx
      simp only [buildRangesAux, List.mem_singleton] at hr
      subst hr
      simp only [buildRangesAux, List.flatMap_cons, List.flatMap_nil,
        List.append_nil] at hx
      rw [mem_expandRange hse] at hx
      omega
  | cons u rs ih =>
    intro s e hsort hgt hse
    have hu : e < u := hgt u (by simp)
    rcases List.sorted_cons.1 hsort with ⟨hurs, hrs⟩
    by_cases heq : u = e + 1
    · rw [buildRangesAux, if_pos heq]
      have hrec := ih s u hrs hurs (by omega)
      rcases hrec with ⟨hflat, hbounds, hgaps⟩
      refine ⟨?_, hbounds, hgaps⟩
      rw [hflat]
      have h1 : u + 1 - s = (e + 1 - s) + 1 := by omega
      rw [h1, List.range'_concat]
      have h2 : s + 1 * (e + 1 - s) = u := by omega
      rw [h2]
      simp
    · rw [buildRangesAux, if_neg heq]
      have hrec := ih u u hrs hurs (le_refl u)
      rcases hrec with ⟨hflat, hbounds, hgaps⟩
      have hflatcons :
          ((s, e) :: buildRangesAux u u rs).flatMap expandRange =
            List.range' s (e + 1 - s) ++ (u :: rs) := by
        rw [List.flatMap_cons, hflat]
        have : u + 1 - u = 1 := by omega
        rw [this]
        simp [expandRange]
      have hmemF' : ∀ x ∈ (buildRangesAux u u rs).flatMap expandRange, u ≤ x := by
        intro x hx
        rw [hflat] at hx
        rcases List.mem_append.1 hx with h1 | h1
        · rw [List.mem_range'_1] at h1; omega
        · exact le_of_lt (hurs x h1)
      refine ⟨hflatcons, ?_, ?_⟩
      · intro r hr
        rcases List.mem_cons.1 hr with h1 | h1
        · subst h1; exact ⟨le_refl s, hse⟩
        · rcases hbounds r h1 with ⟨h2, h3⟩
          exact ⟨by omega, h3⟩
      · intro r hr x hx
        rw [List.flatMap_cons] at hx
        rcases List.mem_append.1 hx with hx1 | hx1
        · -- x is in the leading range [s, e]
          rw [mem_expandRange hse] at hx1
          rcases List.mem_cons.1 hr with h1 | h1
          · subst h1; constructor <;> intro <;> omega
          · rcases hbounds r h1 with ⟨h2, h3⟩
            constructor <;> intro <;> omega
        · -- x is in the expansion of the later ranges
          have hux : u ≤ x := hmemF' x hx1
          rcases List.mem_cons.1 hr with h1 | h1
          · subst h1
            constructor <;> intro <;> omega
          · exact hgaps r h1 x hx1

/-- Characterization of `buildRanges` on a strictly sorted list: the ranges
expand back to exactly the list, every range is well-formed, and every range
is maximal (the elements just outside it are not in the list). -/
theorem buildRanges_spec {l : List Nat} (hsort : l.Sorted (· < ·)) :
    (buildRanges l).flatMap expandRange = l ∧
    ∀ r ∈ buildRanges l, r.1 ≤ r.2 ∧ r.2 + 1 ∉ l ∧ (1 ≤ r.1 → r.1 - 1 ∉ l) := by
  cases l with
  | nil => simp [buildRanges]
  | cons u us =>
    rcases List.sorted_cons.1 hsort with ⟨hus, hsorted⟩
    have hspec := buildRangesAux_spec us u u hsorted hus (le_refl u)
    rcases hspec with ⟨hflat, hbounds, hgaps⟩
    have hauxflat : (buildRangesAux u u us).flatMap expandRange = u :: us := by
      rw [hflat]
      have : u + 1 - u = 1 := by omega
      rw [this]
      simp
    have hflat' : (buildRanges (u :: us)).flatMap expandRange = u :: us := by
      rw [buildRanges]; exact hauxflat
    refine ⟨hflat', ?_⟩
    intro r hr
    rw [buildRanges] at hr
    refine ⟨(hbounds r hr).2, ?_, ?_⟩
    · intro hmem
      have hx := hgaps r hr (r.2 + 1) (by rw [hauxflat]; exact hmem)
      omega
    · intro hr1 hmem
      have hx := hgaps r hr (r.1 - 1) (by rw [hauxflat]; exact hmem)
      omega

/-! ### Serialization lemmas and the UID set encoder theorem -/

theorem serializeRange_ne_nil (r : Nat × Nat) : serializeRange r ≠ [] := by
  obtain ⟨s, e⟩ := r
  rw [serializeRange]
  by_cases h : s = e
  · rw [if_pos h]; exact natDigits_ne_nil s
  · rw [if_neg h]
    intro hc
    exact natDigits_ne_nil s (List.append_eq_nil.1 hc).1

theorem comma_not_mem_serializeRange (r : Nat × Nat) : ',' ∉ serializeRange r := by
  obtain ⟨s, e⟩ := r
  rw [serializeRange]
  by_cases h : s = e
  · rw [if_pos h]; exact (natDigits_no_comma_colon s).1
  · rw [if_neg h]
    intro hc
    rcases List.mem_append.1 hc with h1 | h1
    · exact (natDigits_no_comma_colon s).1 h1
    · rcases List.mem_cons.1 h1 with h2 | h2
      · exact absurd h2 (by decide)
      · exact (natDigits_no_comma_colon e).1 h2

theorem serializeRange_length {r : Nat × Nat} (h1 : r.1 < 2 ^ 32) (h2 : r.2 < 2 ^ 32) :
    (serializeRange r).length ≤ MAX_UID_SET_LENGTH := by
  obtain ⟨s, e⟩ := r
  have hs : (natDigits s).length ≤ 10 := natDigits_length_le_ten (by exact h1)
  have he : (natDigits e).length ≤ 10 := natDigits_length_le_ten (by exact h2)
  rw [serializeRange]
  by_cases h : s = e
  · rw [if_pos h]
    show (natDigits s).length ≤ 4000
    omega
  · rw [if_neg h]
    show (natDigits s ++ ':' :: natDigits e).length ≤ 4000
    simp only [List.length_append, List.length_cons]
    omega

theorem decodeToken_single {t a : Str} (h : splitOnChar ':' t = [a]) :
    decodeToken t = (match parseDigits a with
      | some n => [n]
      | none => []) := by
  rw [decodeToken, h]

theorem decodeToken_pair {t a b : Str} (h : splitOnChar ':' t = [a, b]) :
    decodeToken t = (match parseDigits a, parseDigits b with
      | some x, some y => List.range' x (y + 1 - x)
      | _, _ => []) := by
  rw [decodeToken, h]

theorem decodeToken_serializeRange {r : Nat × Nat} (h : r.1 ≤ r.2) :
    decodeToken (serializeRange r) = expandRange r := by
  obtain ⟨s, e⟩ := r
  rw [serializeRange]
  by_cases hse : s = e
  · rw [if_pos hse,
      decodeToken_single (splitOnChar_no_sep (natDigits_no_comma_colon s).2),
      parseDigits_natDigits]
    subst hse
    simp [expandRange]
  · have hsplit : splitOnChar ':' (natDigits s ++ ':' :: natDigits e) =
        [natDigits s, natDigits e] := by
      rw [splitOnChar_append,
        splitOnChar_no_sep (natDigits_no_comma_colon s).2,
        splitOnChar_no_sep (natDigits_no_comma_colon e).2]
      rfl
    rw [if_neg hse, decodeToken_pair hsplit, parseDigits_natDigits,
      parseDigits_natDigits]
    rfl

theorem eq_of_no_colon_serializeRange {r : Nat × Nat}
    (h : ':' ∉ serializeRange r) : r.1 = r.2 := by
  obtain ⟨s, e⟩ := r
  by_contra hne
  rw [serializeRange, if_neg hne] at h
  exact h (List.mem_append.2 (Or.inr (by simp)))

theorem flatMap_congr_mem {α β : Type} {l : List α} {f g : α → List β}
    (h : ∀ x ∈ l, f x = g x) : l.flatMap f = l.flatMap g := by
  induction l with
  | nil => rfl
  | cons x xs ih =>
    simp only [List.flatMap_cons]
    rw [h x (by simp), ih (fun y hy => h y (by simp [hy]))]

/-- The fully decoded content of the chunks of `build_uid_set uids` is exactly
the sorted deduplication of `uids`. -/
theorem build_uid_set_flat (uids : List Nat) (hnil : uids ≠ []) :
    (build_uid_set uids).flatMap decodeChunk = dedupAdj (sortNat uids) := by
  set l := dedupAdj (sortNat uids) with hl
  have hsort : l.Sorted (· < ·) := sorted_dedupAdj (sorted_sortNat uids)
  rcases buildRanges_spec hsort with ⟨hflat, hrange⟩
  have hbounds : ∀ r ∈ buildRanges l, r.1 ≤ r.2 := fun r hr => (hrange r hr).1
  have hparts : ∀ p ∈ (buildRanges l).map serializeRange, p ≠ [] ∧ ',' ∉ p := by
    intro p hp
    rcases List.mem_map.1 hp with ⟨r, _, hre⟩
    exact hre ▸ ⟨serializeRange_ne_nil r, comma_not_mem_serializeRange r⟩
  have hset : build_uid_set uids = chunkParts ((buildRanges l).map serializeRange) := by
    rw [build_uid_set, if_neg hnil]
  rw [hset]
  have htok := chunkAux_flat ((buildRanges l).map serializeRange) [] hparts
  rw [if_pos rfl] at htok
  simp only [List.nil_append] at htok
  show (chunkAux [] ((buildRanges l).map serializeRange)).flatMap decodeChunk = l
  have hassoc : (chunkAux [] ((buildRanges l).map serializeRange)).flatMap decodeChunk =
      ((chunkAux [] ((buildRanges l).map serializeRange)).flatMap
        (splitOnChar ',')).flatMap decodeToken := by
    rw [List.flatMap_assoc]
    rfl
  rw [hassoc, htok, List.flatMap_map]
  have : ∀ r ∈ buildRanges l, decodeToken (serializeRange r) = expandRange r :=
    fun r hr => decodeToken_serializeRange (hbounds r hr)
  rw [flatMap_congr_mem this, hflat]

/-- C1: `build_uid_set` on positive 32-bit identifiers: the decoded chunks
form exactly the deduplication of the input (independent of input order);
every chunk string has length at most 4000; singleton entries are never part
of a consecutive run of length ≥ 2; and the empty input yields the empty
sequence. -/
theorem build_uid_set_correct (uids : List Nat)
    (hpos : ∀ u ∈ uids, 0 < u ∧ u < 2 ^ 32) :
    (uids = [] → build_uid_set uids = []) ∧
    (∀ uids' : List Nat, uids.Perm uids' → build_uid_set uids' = build_uid_set uids) ∧
    (∀ n, (∃ c ∈ build_uid_set uids, n ∈ decodeChunk c) ↔ n ∈ uids) ∧
    ((build_uid_set uids).flatMap decodeChunk).Nodup ∧
    (∀ c ∈ build_uid_set uids, c.length ≤ 4000) ∧
    (∀ c ∈ build_uid_set uids, ∀ t ∈ splitOnChar ',' c, ':' ∉ t →
      ∃ n, parseDigits t = some n ∧ n + 1 ∉ uids ∧ n - 1 ∉ uids) := by
  by_cases hnil : uids = []
  · subst hnil
    refine ⟨fun _ => rfl, ?_, by simp [build_uid_set], by simp [build_uid_set],
      by simp [build_uid_set], by simp [build_uid_set]⟩
    intro u' hp
    rw [List.nil_perm.1 hp]
  · have hflatAll := build_uid_set_flat uids hnil
    set l := dedupAdj (sortNat uids) with hldef
    have hsort : l.Sorted (· < ·) := sorted_dedupAdj (sorted_sortNat uids)
    have hmemL : ∀ x : Nat, x ∈ l ↔ x ∈ uids :=
      fun x => mem_dedupAdj.trans mem_sortNat
    rcases buildRanges_spec hsort with ⟨hflat, hrange⟩
    have hrl : ∀ r ∈ buildRanges l, r.1 ∈ l ∧ r.2 ∈ l := by
      intro r hr
      have hb := (hrange r hr).1
      constructor
      · rw [← hflat]
        exact List.mem_flatMap.2 ⟨r, hr, (mem_expandRange hb).2 ⟨le_refl _, hb⟩⟩
      · rw [← hflat]
        exact List.mem_flatMap.2 ⟨r, hr, (mem_expandRange hb).2 ⟨hb, le_refl _⟩⟩
    have hset : build_uid_set uids = chunkParts ((buildRanges l).map serializeRange) := by
      rw [build_uid_set, if_neg hnil]
    have hparts : ∀ p ∈ (buildRanges l).map serializeRange, p ≠ [] ∧ ',' ∉ p := by
      intro p hp
      rcases List.mem_map.1 hp with ⟨r, _, hre⟩
      exact hre ▸ ⟨serializeRange_ne_nil r, comma_not_mem_serializeRange r⟩
    refine ⟨fun h => absurd h hnil, ?_, ?_, ?_, ?_, ?_⟩
    · -- order-independence
      intro u' hp
      have hu'nil : u' ≠ [] := by
        intro h
        subst h
        exact hnil (List.perm_nil.1 hp)
      rw [build_uid_set, build_uid_set, if_neg hu'nil, if_neg hnil,
        sortNat_eq_of_perm hp.symm]
    · -- decoded chunks are exactly the deduplicated input, as a set
      intro n
      constructor
      · rintro ⟨c, hc, hn⟩
        have hmem : n ∈ (build_uid_set uids).flatMap decodeChunk :=
          List.mem_flatMap.2 ⟨c, hc, hn⟩
        rw [hflatAll] at hmem
        exact (hmemL n).1 hmem
      · intro hn
        have hmem : n ∈ (build_uid_set uids).flatMap decodeChunk := by
          rw [hflatAll]
          exact (hmemL n).2 hn
        exact List.mem_flatMap.1 hmem
    · -- no duplicates among the decoded identifiers
      rw [hflatAll]
      exact hsort.nodup
    · -- every chunk fits in 4000 characters
      intro c hc
      rw [hset] at hc
      have hplen : ∀ p ∈ (buildRanges l).map serializeRange,
          p.length ≤ MAX_UID_SET_LENGTH := by
        intro p hp
        rcases List.mem_map.1 hp with ⟨r, hr, hre⟩
        have b1 : r.1 < 2 ^ 32 := (hpos _ ((hmemL _).1 (hrl r hr).1)).2
        have b2 : r.2 < 2 ^ 32 := (hpos _ ((hmemL _).1 (hrl r hr).2)).2
        exact hre ▸ serializeRange_length b1 b2
      have := chunkAux_length _ [] hplen (by simp [MAX_UID_SET_LENGTH]) c hc
      simpa [MAX_UID_SET_LENGTH] using this
    · -- singleton entries never sit inside a consecutive run
      intro c hc t ht hcol
      rw [hset] at hc
      have htok := chunkAux_flat ((buildRanges l).map serializeRange) [] hparts
      rw [if_pos rfl] at htok
      simp only [List.nil_append] at htok
      have htp : t ∈ (buildRanges l).map serializeRange := by
        rw [← htok]
        exact List.mem_flatMap.2 ⟨c, hc, ht⟩
      rcases List.mem_map.1 htp with ⟨r, hr, hre⟩
      have heq : r.1 = r.2 := eq_of_no_colon_serializeRange (hre ▸ hcol)
      have hser : serializeRange r = natDigits r.1 := by
        obtain ⟨s, e⟩ := r
        rw [serializeRange, if_pos heq]
      have hr1l : r.1 ∈ l := (hrl r hr).1
      have hr1pos : 0 < r.1 := (hpos _ ((hmemL _).1 hr1l)).1
      refine ⟨r.1, ?_, ?_, ?_⟩
      · rw [← hre, hser, parseDigits_natDigits]
      · intro hmem
        have : r.2 + 1 ∈ l := (hmemL _).2 (heq ▸ hmem)
        exact (hrange r hr).2.1 this
      · intro hmem
        have : r.1 - 1 ∈ l := (hmemL _).2 hmem
        exact (hrange r hr).2.2 (by omega) this

theorem build_uid_set_correct_witness :
    (∀ u ∈ ([1, 2, 3, 5, 7, 8, 9] : List Nat), 0 < u ∧ u < 2 ^ 32) ∧
    build_uid_set [1, 2, 3, 5, 7, 8, 9] = ["1:3,5,7:9".data] ∧
    (∀ n, (∃ c ∈ build_uid_set [1, 2, 3, 5, 7, 8, 9], n ∈ decodeChunk c) ↔
      n ∈ ([1, 2, 3, 5, 7, 8, 9] : List Nat)) :=
  ⟨by decide, by rfl,
    (build_uid_set_correct [1, 2, 3, 5, 7, 8, 9] (by decide)).2.2.1⟩

/-! ## Date handling (`src/search.rs`) -/

/-- `MONTH_ABBRS` from `src/search.rs`. -/
def MONTH_ABBRS : List Str :=
  ["Jan".data, "Feb".data, "Mar".data, "Apr".data, "May".data, "Jun".data,
   "Jul".data, "Aug".data, "Sep".data, "Oct".data, "Nov".data, "Dec".data]

/-- `format_imap_date` from `src/search.rs`: `D-Mon-YYYY`, day without
leading zero, or an error for out-of-range month/day. -/
def format_imap_date (day month : Nat) (year : Int) : Except Str Str :=
  if ¬(1 ≤ month ∧ month ≤ 12) ∨ ¬(1 ≤ day ∧ day ≤ 31) then
    .error ("Invalid computed date: ".data ++ intDigits year ++
      '-' :: (pad2 month ++ '-' :: pad2 day))
  else
    .ok (natDigits day ++ '-' :: (MONTH_ABBRS.getD (month - 1) [] ++ '-' :: intDigits year))

/-- `epoch_to_date` from `src/search.rs` (Howard Hinnant's civil-calendar
algorithm). Rust `i64` `/` and `%` are `Int.tdiv`/`Int.tmod`; the `as u32`
cast is `.emod (2 ^ 32) |>.toNat`. -/
def epoch_to_date (secs : Int) : Int × Nat × Nat :=
  let z : Int := secs.tdiv 86400 + 719468
  let era : Int := (if 0 ≤ z then z else z - 146096).tdiv 146097
  let doe : Nat := ((z - era * 146097).emod (2 ^ 32)).toNat
  let yoe : Nat := (doe - doe / 1460 + doe / 36524 - doe / 146096) / 365
  let y : Int := (yoe : Int) + era * 400
  let doy : Nat := doe - (365 * yoe + yoe / 4 - yoe / 100)
  let mp : Nat := (5 * doy + 2) / 153
  let d : Nat := doy - (153 * mp + 2) / 5 + 1
  let m : Nat := if mp < 10 then mp + 3 else mp - 9
  let y2 : Int := if m ≤ 2 then y + 1 else y
  (y2, m, d)

/-- `days_in_month` from `src/search.rs` (Gregorian rule; Rust `%` on `i64`
is `Int.tmod`). -/
def days_in_month (year : Int) (month : Nat) : Nat :=
  if month = 1 ∨ month = 3 ∨ month = 5 ∨ month = 7 ∨ month = 8 ∨
      month = 10 ∨ month = 12 then 31
  else if month = 4 ∨ month = 6 ∨ month = 9 ∨ month = 11 then 30
  else if month = 2 then
    if year.tmod 4 = 0 ∧ (year.tmod 100 ≠ 0 ∨ year.tmod 400 = 0) then 29 else 28
  else 30

/-- Match of the regex `^(\d+)([dwmy])$`: the digit run and the unit. -/
def relMatch (s : Str) : Option (Str × Char) :=
  match s.getLast? with
  | none => none
  | some u =>
    if u = 'd' ∨ u = 'w' ∨ u = 'm' ∨ u = 'y' then
      let ds := s.dropLast
      if ds ≠ [] ∧ ds.all (fun c => (digitVal? c).isSome) then some (ds, u)
      else none
    else none

/-- Embeds Rust `str::parse::<u32>` on a digit run: fails on overflow. -/
def rustParseU32 (ds : Str) : Option Nat :=
  match parseDigits ds with
  | some v => if v < 2 ^ 32 then some v else none
  | none => none

/-- `resolve_relative_date` from `src/search.rs`, with the ambient
`SystemTime::now()` passed in as `nowSecs` (seconds since the epoch). -/
def resolve_relative_date (nowSecs : Int) (s : Str) : Option (Except Str Str) :=
  match relMatch s with
  | none => none
  | some (ds, unit) =>
    match rustParseU32 ds with
    | none => some (.error ("number too large to fit in target type".data))
    | some n =>
      some (
        if unit = 'd' ∨ unit = 'w' then
          let days : Int := if unit = 'w' then (n : Int) * 7 else (n : Int)
          let ymd := epoch_to_date (nowSecs - days * 86400)
          format_imap_date ymd.2.2 ymd.2.1 ymd.1
        else if unit = 'm' then
          let ymd := epoch_to_date nowSecs
          let totalMonths := (ymd.1 * 12 + (ymd.2.1 : Int) - 1) - (n : Int)
          let y := totalMonths.ediv 12
          let m := (totalMonths.emod 12 + 1).toNat
          let d := min ymd.2.2 (days_in_month y m)
          format_imap_date d m y
        else
          let ymd := epoch_to_date nowSecs
          let y := ymd.1 - (n : Int)
          let d := min ymd.2.2 (days_in_month y ymd.2.1)
          format_imap_date d ymd.2.1 y)

/-- Match of the regex `^(\d{4})-(\d{2})-(\d{2})$`. -/
def isoMatch (s : Str) : Option (Str × Str × Str) :=
  match s with
  | [y1, y2, y3, y4, h1, m1, m2, h2, d1, d2] =>
    if h1 = '-' ∧ h2 = '-' ∧
        [y1, y2, y3, y4, m1, m2, d1, d2].all (fun c => (digitVal? c).isSome) then
      some ([y1, y2, y3, y4], [m1, m2], [d1, d2])
    else none
  | _ => none

/-- `parse_date` from `src/search.rs`: relative shorthand first, then ISO
`YYYY-MM-DD`, with validation errors naming the input. -/
def parse_date (nowSecs : Int) (s : Str) : Except Str Str :=
  match resolve_relative_date nowSecs s with
  | some r => r
  | none =>
    match isoMatch s with
    | none =>
      .error ("Invalid date '".data ++ s ++
        "' (expected YYYY-MM-DD or relative like 7d, 2w, 3m, 1y)".data)
    | some (ys, ms, ds) =>
      match parseDigits ys, parseDigits ms, parseDigits ds with
      | some year, some month, some day =>
        match format_imap_date day month (year : Int) with
        | .ok r => .ok r
        | .error _ =>
          .error ("Invalid date '".data ++ s ++
            "' (expected YYYY-MM-DD, e.g. 2025-01-31)".data)
      | _, _, _ => .error ("invalid digit found in string".data)

theorem days_in_month_feb (y : Int) :
    days_in_month y 2 =
      if y.tmod 4 = 0 ∧ (y.tmod 100 ≠ 0 ∨ y.tmod 400 = 0) then 29 else 28 := rfl

theorem days_in_month_feb_le (y : Int) : days_in_month y 2 ≤ 31 := by
  rw [days_in_month_feb]
  split <;> omega

theorem resolve_1m (now y : Int) (h : epoch_to_date now = (y, 3, 31)) :
    resolve_relative_date now ("1m".data) =
      some (format_imap_date (min 31 (days_in_month y 2)) 2 y) := by
  have hred : resolve_relative_date now ("1m".data) =
      some (
        let ymd := epoch_to_date now
        let totalMonths := ymd.1 * 12 + (ymd.2.1 : Int) - 1 - ((1 : Nat) : Int)
        let y2 := totalMonths.ediv 12
        let m := (totalMonths.emod 12 + 1).toNat
        let d := min ymd.2.2 (days_in_month y2 m)
        format_imap_date d m y2) := rfl
  rw [hred, h]
  have harith : y * 12 + (((3 : Nat) : Nat) : Int) - 1 - ((1 : Nat) : Int) = y * 12 + 1 := by
    push_cast; ring
  show some (format_imap_date
      (min 31 (days_in_month ((y * 12 + ((3 : Nat) : Int) - 1 - ((1 : Nat) : Int)).ediv 12)
        (((y * 12 + ((3 : Nat) : Int) - 1 - ((1 : Nat) : Int)).emod 12 + 1).toNat)))
      (((y * 12 + ((3 : Nat) : Int) - 1 - ((1 : Nat) : Int)).emod 12 + 1).toNat)
      ((y * 12 + ((3 : Nat) : Int) - 1 - ((1 : Nat) : Int)).ediv 12)) = _
  rw [harith]
  have hY : (y * 12 + 1).ediv 12 = y := by
    show (y * 12 + 1) / 12 = y
    omega
  have hM : ((y * 12 + 1).emod 12 + 1).toNat = 2 := by
    have h12 : (y * 12 + 1).emod 12 = 1 := by
      show (y * 12 + 1) % 12 = 1
      omega
    rw [h12]
    rfl
  rw [hY, hM]

/-- C7: absolute dates `YYYY-MM-DD` convert to `D-Mon-YYYY` without a
leading zero on the day (`2025-01-01 ↦ 1-Jan-2025`, `2024-12-31 ↦
31-Dec-2024`), and relative month subtraction clamps the day to the last
valid day of the target month under the Gregorian leap-year rule: `"1m"`
evaluated when today is any March 31 yields the last day of February of
that year (29 in leap years, 28 otherwise). -/
theorem date_compilation_correct :
    (∀ now : Int, parse_date now ("2025-01-01".data) = .ok ("1-Jan-2025".data)) ∧
    (∀ now : Int, parse_date now ("2024-12-31".data) = .ok ("31-Dec-2024".data)) ∧
    (∀ now y : Int, epoch_to_date now = (y, 3, 31) →
      resolve_relative_date now ("1m".data) =
        some (.ok (natDigits (days_in_month y 2) ++
          '-' :: ("Feb".data ++ '-' :: intDigits y))) ∧
      (y.tmod 4 = 0 ∧ (y.tmod 100 ≠ 0 ∨ y.tmod 400 = 0) → days_in_month y 2 = 29) ∧
      (¬(y.tmod 4 = 0 ∧ (y.tmod 100 ≠ 0 ∨ y.tmod 400 = 0)) → days_in_month y 2 = 28)) := by
  refine ⟨fun now => rfl, fun now => rfl, ?_⟩
  intro now y h
  refine ⟨?_, ?_, ?_⟩
  · rw [resolve_1m now y h]
    have hmin : min 31 (days_in_month y 2) = days_in_month y 2 :=
      Nat.min_eq_right (days_in_month_feb_le y)
    rw [hmin]
    have hd : 1 ≤ days_in_month y 2 ∧ days_in_month y 2 ≤ 31 := by
      rw [days_in_month_feb]; split <;> omega
    rw [format_imap_date, if_neg (by omega)]
    rfl
  · intro hleap
    rw [days_in_month_feb, if_pos hleap]
  · intro hleap
    rw [days_in_month_feb, if_neg hleap]

theorem date_compilation_correct_witness :
    epoch_to_date 1743379200 = ((2025 : Int), 3, 31) ∧
    parse_date 1743379200 ("2025-01-01".data) = .ok ("1-Jan-2025".data) ∧
    resolve_relative_date 1743379200 ("1m".data) =
      some (.ok (natDigits (days_in_month 2025 2) ++
        '-' :: ("Feb".data ++ '-' :: intDigits 2025))) :=
  ⟨by decide, date_compilation_correct.1 1743379200,
    (date_compilation_correct.2.2 1743379200 2025 (by decide)).1⟩

/-! ## Size parsing (`parse_size` from `src/search.rs`) -/

/-- Embeds Rust `str::trim`. -/
def trimStr (s : Str) : Str :=
  ((s.dropWhile Char.isWhitespace).reverse.dropWhile Char.isWhitespace).reverse

/-- Embeds Rust `str::strip_suffix` with a one-character pattern. -/
def stripSuffixChar (c : Char) (s : Str) : Option Str :=
  match s.getLast? with
  | some c2 => if c2 = c then some s.dropLast else none
  | none => none

/-- Embeds Rust `str::parse::<u64>`: optional leading `+`, a run of digits,
failing when the value exceeds `u64::MAX`. -/
def rustParseU64 (s : Str) : Option Nat :=
  let ds := match s with
    | c :: rest => if c = '+' then rest else s
    | [] => s
  match parseDigits ds with
  | some v => if v < 2 ^ 64 then some v else none
  | none => none

def SIZE_ERR_SUFFIX : Str :=
  "' (expected bytes, or value with K/M suffix such as 10K or 5M)".data

/-- `parse_size` from `src/search.rs`. -/
def parse_size (s0 : Str) : Except Str Nat :=
  let s := trimStr s0
  if s = [] then .error ("Invalid size '".data ++ s ++ SIZE_ERR_SUFFIX)
  else
    let rawMult : Str × Nat :=
      match (match stripSuffixChar 'M' s with
             | some n => some n
             | none => stripSuffixChar 'm' s) with
      | some n => (trimStr n, 1048576)
      | none =>
        match (match stripSuffixChar 'K' s with
               | some n => some n
               | none => stripSuffixChar 'k' s) with
        | some n => (trimStr n, 1024)
        | none => (s, 1)
    match rustParseU64 rawMult.1 with
    | none => .error ("Invalid size '".data ++ s ++ SIZE_ERR_SUFFIX)
    | some value =>
      if value * rawMult.2 < 2 ^ 64 then .ok (value * rawMult.2)
      else .error ("Size '".data ++ s ++ "' is too large".data)

theorem dropWhile_eq_self_of {p : Char → Bool} {l : Str}
    (h : ∀ c ∈ l, p c = false) : l.dropWhile p = l := by
  cases l with
  | nil => rfl
  | cons c t => simp [List.dropWhile_cons, h c (by simp)]

theorem trimStr_eq_self {s : Str} (h : ∀ c ∈ s, c.isWhitespace = false) :
    trimStr s = s := by
  rw [trimStr, dropWhile_eq_self_of h,
    dropWhile_eq_self_of (fun c hc => h c (List.mem_reverse.1 hc)),
    List.reverse_reverse]

theorem mem_trimStr {c : Char} {s : Str} (h : c ∈ trimStr s) : c ∈ s := by
  rw [trimStr, List.mem_reverse] at h
  have h2 : c ∈ (s.dropWhile Char.isWhitespace).reverse :=
    (List.dropWhile_sublist _).subset h
  rw [List.mem_reverse] at h2
  exact (List.dropWhile_sublist _).subset h2

theorem digitChar_facts {d : Nat} (hd : d < 10) :
    digitChar d ≠ 'K' ∧ digitChar d ≠ 'k' ∧ digitChar d ≠ 'M' ∧
    digitChar d ≠ 'm' ∧ digitChar d ≠ '+' ∧ (digitChar d).isWhitespace = false := by
  interval_cases d <;> decide

theorem natDigits_not_ws (n : Nat) : ∀ c ∈ natDigits n, c.isWhitespace = false := by
  intro c hc
  rcases natDigits_all_digit n c hc with ⟨d, hd, rfl⟩
  exact (digitChar_facts hd).2.2.2.2.2

theorem natDigits_getLast (n : Nat) :
    ∃ d, d < 10 ∧ (natDigits n).getLast? = some (digitChar d) := by
  rw [natDigits_eq]
  by_cases h : n < 10
  · rw [if_pos h]
    exact ⟨n, h, rfl⟩
  · rw [if_neg h]
    exact ⟨n % 10, Nat.mod_lt _ (by omega), List.getLast?_concat _⟩

theorem stripSuffixChar_natDigits {n : Nat} {c : Char}
    (hc : ∀ d, d < 10 → digitChar d ≠ c) :
    stripSuffixChar c (natDigits n) = none := by
  rcases natDigits_getLast n with ⟨d, hd, hlast⟩
  rw [stripSuffixChar, hlast]
  simp [hc d hd]

theorem stripSuffixChar_concat_self (l : Str) (c : Char) :
    stripSuffixChar c (l ++ [c]) = some l := by
  rw [stripSuffixChar, List.getLast?_concat]
  simp

theorem stripSuffixChar_concat_ne (l : Str) {c c2 : Char} (h : c2 ≠ c) :
    stripSuffixChar c (l ++ [c2]) = none := by
  rw [stripSuffixChar, List.getLast?_concat]
  simp [h]

theorem stripSuffixChar_eq_some {c : Char} {s r : Str}
    (h : stripSuffixChar c s = some r) : r = s.dropLast := by
  rw [stripSuffixChar] at h
  rcases hlast : s.getLast? with _ | c2 <;> simp only [hlast] at h
  · exact absurd h (by simp)
  · by_cases hc2 : c2 = c
    · rw [if_pos hc2] at h
      exact (Option.some.inj h).symm
    · rw [if_neg hc2] at h
      exact absurd h (by simp)

theorem stripPair_eq_some {c1 c2 : Char} {s r : Str}
    (h : (match stripSuffixChar c1 s with
          | some n => some n
          | none => stripSuffixChar c2 s) = some r) : r = s.dropLast := by
  rcases hstrip : stripSuffixChar c1 s with _ | r2 <;> rw [hstrip] at h
  · exact stripSuffixChar_eq_some h
  · simp at h
    exact h ▸ stripSuffixChar_eq_some hstrip

theorem rustParseU64_natDigits (n : Nat) :
    rustParseU64 (natDigits n) = if n < 2 ^ 64 then some n else none := by
  have hp := parseDigits_natDigits n
  rcases hnd : natDigits n with _ | ⟨c, t⟩
  · exact absurd hnd (natDigits_ne_nil n)
  · have hc : c ≠ '+' := by
      rcases natDigits_all_digit n c (hnd ▸ (by simp)) with ⟨d, hd, rfl⟩
      exact (digitChar_facts hd).2.2.2.2.1
    rw [hnd] at hp
    rw [rustParseU64]
    simp only [if_neg hc, hp]

theorem parseDigits_head_nondigit {c : Char} {t : Str} (h : digitVal? c = none) :
    parseDigits (c :: t) = none := by
  simp [parseDigits, parseDigitsAux, h]

theorem natDigits_suffix_not_ws {n : Nat} {c : Char} (hc : c.isWhitespace = false) :
    ∀ x ∈ natDigits n ++ [c], x.isWhitespace = false := by
  intro x hx
  rcases List.mem_append.1 hx with h1 | h1
  · exact natDigits_not_ws n x h1
  · simp at h1
    exact h1 ▸ hc

theorem parse_size_natDigits_M {n : Nat} {c : Char} (hcM : c = 'M' ∨ c = 'm') :
    parse_size (natDigits n ++ [c]) =
      if n < 2 ^ 64 then
        (if n * 1048576 < 2 ^ 64 then .ok (n * 1048576)
         else .error ("Size '".data ++ (natDigits n ++ [c]) ++ "' is too large".data))
      else .error ("Invalid size '".data ++ (natDigits n ++ [c]) ++ SIZE_ERR_SUFFIX) := by
  have hws : c.isWhitespace = false := by rcases hcM with h | h <;> subst h <;> decide
  have htrim : trimStr (natDigits n ++ [c]) = natDigits n ++ [c] :=
    trimStr_eq_self (natDigits_suffix_not_ws hws)
  have hne : natDigits n ++ [c] ≠ [] := by simp
  have htrimn : trimStr (natDigits n) = natDigits n :=
    trimStr_eq_self (natDigits_not_ws n)
  have hMm : (match stripSuffixChar 'M' (natDigits n ++ [c]) with
      | some r => some r
      | none => stripSuffixChar 'm' (natDigits n ++ [c])) = some (natDigits n) := by
    rcases hcM with h | h <;> subst h
    · rw [stripSuffixChar_concat_self]
    · rw [stripSuffixChar_concat_ne _ (by decide), stripSuffixChar_concat_self]
  rw [parse_size]
  simp only [htrim, if_neg hne, hMm, htrimn, rustParseU64_natDigits]
  by_cases hn : n < 2 ^ 64
  · rw [if_pos hn, if_pos hn]
  · rw [if_neg hn, if_neg hn]

theorem parse_size_natDigits_K {n : Nat} {c : Char} (hcK : c = 'K' ∨ c = 'k') :
    parse_size (natDigits n ++ [c]) =
      if n < 2 ^ 64 then
        (if n * 1024 < 2 ^ 64 then .ok (n * 1024)
         else .error ("Size '".data ++ (natDigits n ++ [c]) ++ "' is too large".data))
      else .error ("Invalid size '".data ++ (natDigits n ++ [c]) ++ SIZE_ERR_SUFFIX) := by
  have hws : c.isWhitespace = false := by rcases hcK with h | h <;> subst h <;> decide
  have htrim : trimStr (natDigits n ++ [c]) = natDigits n ++ [c] :=
    trimStr_eq_self (natDigits_suffix_not_ws hws)
  have hne : natDigits n ++ [c] ≠ [] := by simp
  have htrimn : trimStr (natDigits n) = natDigits n :=
    trimStr_eq_self (natDigits_not_ws n)
  have hMm : (match stripSuffixChar 'M' (natDigits n ++ [c]) with
      | some r => some r
      | none => stripSuffixChar 'm' (natDigits n ++ [c])) = none := by
    rcases hcK with h | h <;> subst h <;>
      rw [stripSuffixChar_concat_ne _ (by decide),
        stripSuffixChar_concat_ne _ (by decide)]
  have hKk : (match stripSuffixChar 'K' (natDigits n ++ [c]) with
      | some r => some r
      | none => stripSuffixChar 'k' (natDigits n ++ [c])) = some (natDigits n) := by
    rcases hcK with h | h <;> subst h
    · rw [stripSuffixChar_concat_self]
    · rw [stripSuffixChar_concat_ne _ (by decide), stripSuffixChar_concat_self]
  rw [parse_size]
  simp only [htrim, if_neg hne, hMm, hKk, htrimn, rustParseU64_natDigits]
  by_cases hn : n < 2 ^ 64
  · rw [if_pos hn, if_pos hn]
  · rw [if_neg hn, if_neg hn]

theorem parse_size_natDigits_bare (n : Nat) :
    parse_size (natDigits n) =
      if n < 2 ^ 64 then .ok n
      else .error ("Invalid size '".data ++ natDigits n ++ SIZE_ERR_SUFFIX) := by
  have htrimn : trimStr (natDigits n) = natDigits n :=
    trimStr_eq_self (natDigits_not_ws n)
  have hM := stripSuffixChar_natDigits (n := n)
    (fun d hd => (digitChar_facts hd).2.2.1)
  have hm := stripSuffixChar_natDigits (n := n)
    (fun d hd => (digitChar_facts hd).2.2.2.1)
  have hK := stripSuffixChar_natDigits (n := n)
    (fun d hd => (digitChar_facts hd).1)
  have hk := stripSuffixChar_natDigits (n := n)
    (fun d hd => (digitChar_facts hd).2.1)
  rw [parse_size]
  simp only [htrimn, if_neg (natDigits_ne_nil n), hM, hm, hK, hk,
    rustParseU64_natDigits]
  by_cases hn : n < 2 ^ 64
  · simp only [if_pos hn, Nat.mul_one]
  · simp only [if_neg hn]

/-- C6: `parse_size` maps a bare decimal integer to itself, `K`/`k` suffixes
multiply by 1024 and `M`/`m` by 1048576; a multiplication that overflows 64
bits fails with an error instead of wrapping; empty and non-numeric input
fail with an error. -/
theorem parse_size_correct :
    (∀ n : Nat, n < 2 ^ 64 → parse_size (natDigits n) = .ok n) ∧
    (∀ n : Nat, n * 1024 < 2 ^ 64 →
      parse_size (natDigits n ++ ['K']) = .ok (n * 1024) ∧
      parse_size (natDigits n ++ ['k']) = .ok (n * 1024)) ∧
    (∀ n : Nat, n * 1048576 < 2 ^ 64 →
      parse_size (natDigits n ++ ['M']) = .ok (n * 1048576) ∧
      parse_size (natDigits n ++ ['m']) = .ok (n * 1048576)) ∧
    (∀ n : Nat, n < 2 ^ 64 → 2 ^ 64 ≤ n * 1024 →
      ∃ msg, parse_size (natDigits n ++ ['K']) = .error msg) ∧
    (∀ n : Nat, n < 2 ^ 64 → 2 ^ 64 ≤ n * 1048576 →
      ∃ msg, parse_size (natDigits n ++ ['M']) = .error msg) ∧
    (∃ msg, parse_size [] = .error msg) ∧
    (∀ s : Str, (∀ c ∈ s, digitVal? c = none ∧ c ≠ '+') →
      ∃ msg, parse_size s = .error msg) := by
  refine ⟨?_, ?_, ?_, ?_, ?_, ⟨_, rfl⟩, ?_⟩
  · intro n hn
    rw [parse_size_natDigits_bare, if_pos hn]
  · intro n hn
    have hn' : n < 2 ^ 64 := lt_of_le_of_lt (Nat.le_mul_of_pos_right n (by norm_num)) hn
    constructor <;>
      [rw [parse_size_natDigits_K (Or.inl rfl)]; rw [parse_size_natDigits_K (Or.inr rfl)]] <;>
      rw [if_pos hn', if_pos hn]
  · intro n hn
    have hn' : n < 2 ^ 64 := lt_of_le_of_lt (Nat.le_mul_of_pos_right n (by norm_num)) hn
    constructor <;>
      [rw [parse_size_natDigits_M (Or.inl rfl)]; rw [parse_size_natDigits_M (Or.inr rfl)]] <;>
      rw [if_pos hn', if_pos hn]
  · intro n hn hover
    exact ⟨"Size '".data ++ (natDigits n ++ ['K']) ++ "' is too large".data, by
      rw [parse_size_natDigits_K (Or.inl rfl), if_pos hn, if_neg (by omega)]⟩
  · intro n hn hover
    exact ⟨"Size '".data ++ (natDigits n ++ ['M']) ++ "' is too large".data, by
      rw [parse_size_natDigits_M (Or.inl rfl), if_pos hn, if_neg (by omega)]⟩
  · intro s hs
    by_cases htriv : trimStr s = []
    · exact ⟨"Invalid size '".data ++ trimStr s ++ SIZE_ERR_SUFFIX, by
        simp [parse_size, htriv]⟩
    · have hsub : ∀ c ∈ trimStr s, digitVal? c = none ∧ c ≠ '+' :=
        fun c hc => hs c (mem_trimStr hc)
      have hraw : ∀ raw : Str, (∀ c ∈ raw, digitVal? c = none ∧ c ≠ '+') →
          rustParseU64 raw = none := by
        intro raw hr
        cases raw with
        | nil => rfl
        | cons c t =>
          rw [rustParseU64]
          simp only [if_neg (hr c (by simp)).2,
            parseDigits_head_nondigit (hr c (by simp)).1]
      have hsubsub : ∀ u : Str, (∀ c ∈ u, c ∈ trimStr s) →
          ∀ c ∈ trimStr u, digitVal? c = none ∧ c ≠ '+' := by
        intro u hu c hc
        exact hsub c (hu c (mem_trimStr hc))
      refine ⟨"Invalid size '".data ++ trimStr s ++ SIZE_ERR_SUFFIX, ?_⟩
      rw [parse_size]
      simp only [if_neg htriv]
      rcases hMm : (match stripSuffixChar 'M' (trimStr s) with
          | some n => some n
          | none => stripSuffixChar 'm' (trimStr s)) with _ | r
      · rcases hKk : (match stripSuffixChar 'K' (trimStr s) with
            | some n => some n
            | none => stripSuffixChar 'k' (trimStr s)) with _ | r
        · simp only [hMm, hKk]
          rw [hraw (trimStr s) hsub]
        · have hr := stripPair_eq_some hKk
          have hrsub : ∀ c ∈ r, c ∈ trimStr s :=
            fun c hc => (List.dropLast_sublist _).subset (hr ▸ hc)
          simp only [hMm, hKk]
          rw [hraw (trimStr r) (fun c hc => hsub c (hrsub c (mem_trimStr hc)))]
      · have hr := stripPair_eq_some hMm
        have hrsub : ∀ c ∈ r, c ∈ trimStr s :=
          fun c hc => (List.dropLast_sublist _).subset (hr ▸ hc)
        simp only [hMm]
        rw [hraw (trimStr r) (fun c hc => hsub c (hrsub c (mem_trimStr hc)))]

theorem parse_size_correct_witness :
    (5 : Nat) * 1024 < 2 ^ 64 ∧ parse_size (natDigits 5 ++ ['K']) = .ok (5 * 1024) :=
  ⟨by norm_num, (parse_size_correct.2.1 5 (by norm_num)).1⟩

/-! ## Query compiler (`SearchCriteria`, `build_query` from `src/search.rs`) -/

/-- `SearchCriteria` from `src/search.rs` (`from` is a Lean keyword, hence
`from_`). -/
structure SearchCriteria where
  folder : Str
  all_folders : Bool
  subject : Option Str
  from_ : Option Str
  since : Option Str
  before : Option Str
  larger : Option Str
  limit : Option Nat

/-- The `subject` push of `build_query`. -/
def subjectParts (c : SearchCriteria) : List Str :=
  match c.subject with
  | some subj => [("SUBJECT ".data ++ imap_quote subj)]
  | none => []

/-- The `from` push of `build_query`. -/
def fromParts (c : SearchCriteria) (parts : List Str) : List Str :=
  match c.from_ with
  | some f => parts ++ [("FROM ".data ++ imap_quote f)]
  | none => parts

/-- The `since` push of `build_query` (`parse_date` failure propagates). -/
def sinceParts (now : Int) (c : SearchCriteria) (parts : List Str) :
    Except Str (List Str) :=
  match c.since with
  | some s => (parse_date now s).map (fun d => parts ++ [("SINCE ".data ++ d)])
  | none => .ok parts

/-- The `before` push of `build_query`. -/
def beforeParts (now : Int) (c : SearchCriteria) (parts : List Str) :
    Except Str (List Str) :=
  match c.before with
  | some s => (parse_date now s).map (fun d => parts ++ [("BEFORE ".data ++ d)])
  | none => .ok parts

/-- The `larger` push of `build_query` (`parse_size` failure propagates). -/
def largerParts (c : SearchCriteria) (parts : List Str) : Except Str (List Str) :=
  match c.larger with
  | some s => (parse_size s).map (fun b => parts ++ [("LARGER ".data ++ natDigits b)])
  | none => .ok parts

/-- `build_query` from `src/search.rs`. -/
def build_query (now : Int) (c : SearchCriteria) : Except Str Str :=
  match sinceParts now c (fromParts c (subjectParts c)) with
  | .error e => .error e
  | .ok parts3 =>
    match beforeParts now c parts3 with
    | .error e => .error e
    | .ok parts4 =>
      match largerParts c parts4 with
      | .error e => .error e
      | .ok parts =>
        if parts = [] then .ok ("ALL".data)
        else .ok (List.intercalate [' '] parts)

theorem sinceParts_ok {now : Int} {c : SearchCriteria} {p p3 : List Str}
    (h : sinceParts now c p = .ok p3) :
    ∃ cl, p3 = p ++ cl ∧
      (match c.since with
       | some s => ∃ d, parse_date now s = .ok d ∧ cl = [("SINCE ".data ++ d)]
       | none => cl = []) := by
  rcases hs : c.since with _ | s <;> simp only [sinceParts, hs] at h ⊢
  · rw [Except.ok.injEq] at h
    exact ⟨[], by rw [List.append_nil]; exact h.symm, rfl⟩
  · rcases hd : parse_date now s with e | d <;> simp only [hd, Except.map] at h
    · exact absurd h (by simp)
    · rw [Except.ok.injEq] at h
      exact ⟨["SINCE ".data ++ d], h.symm, ⟨d, rfl, rfl⟩⟩

theorem beforeParts_ok {now : Int} {c : SearchCriteria} {p p4 : List Str}
    (h : beforeParts now c p = .ok p4) :
    ∃ cl, p4 = p ++ cl ∧
      (match c.before with
       | some s => ∃ d, parse_date now s = .ok d ∧ cl = [("BEFORE ".data ++ d)]
       | none => cl = []) := by
  rcases hs : c.before with _ | s <;> simp only [beforeParts, hs] at h ⊢
  · rw [Except.ok.injEq] at h
    exact ⟨[], by rw [List.append_nil]; exact h.symm, rfl⟩
  · rcases hd : parse_date now s with e | d <;> simp only [hd, Except.map] at h
    · exact absurd h (by simp)
    · rw [Except.ok.injEq] at h
      exact ⟨["BEFORE ".data ++ d], h.symm, ⟨d, rfl, rfl⟩⟩

theorem largerParts_ok {c : SearchCriteria} {p p5 : List Str}
    (h : largerParts c p = .ok p5) :
    ∃ cl, p5 = p ++ cl ∧
      (match c.larger with
       | some s => ∃ b, parse_size s = .ok b ∧ cl = [("LARGER ".data ++ natDigits b)]
       | none => cl = []) := by
  rcases hs : c.larger with _ | s <;> simp only [largerParts, hs] at h ⊢
  · rw [Except.ok.injEq] at h
    exact ⟨[], by rw [List.append_nil]; exact h.symm, rfl⟩
  · rcases hd : parse_size s with e | b <;> simp only [hd, Except.map] at h
    · exact absurd h (by simp)
    · rw [Except.ok.injEq] at h
      exact ⟨["LARGER ".data ++ natDigits b], h.symm, ⟨b, rfl, rfl⟩⟩

theorem intercalate_singleton (sep p : Str) : List.intercalate sep [p] = p := by
  simp [List.intercalate]

theorem intercalate_cons_cons (sep p r : Str) (t : List Str) :
    List.intercalate sep (p :: r :: t) = p ++ sep ++ List.intercalate sep (r :: t) := by
  simp [List.intercalate, List.intersperse_cons_cons]

theorem intercalate_head {p : Str} (rest : List Str) (hp : p ≠ []) :
    (List.intercalate [' '] (p :: rest)).head? = p.head? := by
  cases rest with
  | nil => rw [intercalate_singleton]
  | cons r t =>
    rw [intercalate_cons_cons, List.append_assoc, List.head?_append]
    rcases p with _ | ⟨c, p'⟩
    · exact absurd rfl hp
    · rfl

theorem build_query_characterize (now : Int) (c : SearchCriteria) (q : Str)
    (hq : build_query now c = .ok q) :
    ∃ subjCl fromCl sinceCl beforeCl largerCl : List Str,
      (subjCl ++ (fromCl ++ (sinceCl ++ (beforeCl ++ largerCl))) = [] ∧
        q = "ALL".data ∨
       subjCl ++ (fromCl ++ (sinceCl ++ (beforeCl ++ largerCl))) ≠ [] ∧
        q = List.intercalate [' ']
          (subjCl ++ (fromCl ++ (sinceCl ++ (beforeCl ++ largerCl))))) ∧
      (match c.subject with
       | some s => subjCl = [("SUBJECT ".data ++ imap_quote s)]
       | none => subjCl = []) ∧
      (match c.from_ with
       | some f => fromCl = [("FROM ".data ++ imap_quote f)]
       | none => fromCl = []) ∧
      (match c.since with
       | some s => ∃ d, parse_date now s = .ok d ∧ sinceCl = [("SINCE ".data ++ d)]
       | none => sinceCl = []) ∧
      (match c.before with
       | some s => ∃ d, parse_date now s = .ok d ∧ beforeCl = [("BEFORE ".data ++ d)]
       | none => beforeCl = []) ∧
      (match c.larger with
       | some s => ∃ b, parse_size s = .ok b ∧ largerCl = [("LARGER ".data ++ natDigits b)]
       | none => largerCl = []) := by
  rw [build_query] at hq
  rcases h3 : sinceParts now c (fromParts c (subjectParts c)) with e | p3 <;>
    simp only [h3] at hq
  · exact absurd hq (by simp)
  rcases h4 : beforeParts now c p3 with e | p4 <;> simp only [h4] at hq
  · exact absurd hq (by simp)
  rcases h5 : largerParts c p4 with e | p5 <;> simp only [h5] at hq
  · exact absurd hq (by simp)
  obtain ⟨sinceCl, hp3, hsinceCl⟩ := sinceParts_ok h3
  obtain ⟨beforeCl, hp4, hbeforeCl⟩ := beforeParts_ok h4
  obtain ⟨largerCl, hp5, hlargerCl⟩ := largerParts_ok h5
  have hfrom : ∃ fromCl, fromParts c (subjectParts c) = subjectParts c ++ fromCl ∧
      (match c.from_ with
       | some f => fromCl = [("FROM ".data ++ imap_quote f)]
       | none => fromCl = []) := by
    rcases hf : c.from_ with _ | f <;> simp only [fromParts, hf]
    · exact ⟨[], by simp, rfl⟩
    · exact ⟨_, rfl, rfl⟩
  obtain ⟨fromCl, hfrom1, hfrom2⟩ := hfrom
  have hsubj : (match c.subject with
      | some s => subjectParts c = [("SUBJECT ".data ++ imap_quote s)]
      | none => subjectParts c = []) := by
    rcases hs : c.subject with _ | s <;> simp only [subjectParts, hs]
  have hp5' : p5 = subjectParts c ++ (fromCl ++ (sinceCl ++ (beforeCl ++ largerCl))) := by
    rw [hp5, hp4, hp3, hfrom1]
    simp [List.append_assoc]
  refine ⟨subjectParts c, fromCl, sinceCl, beforeCl, largerCl, ?_,
    hsubj, hfrom2, hsinceCl, hbeforeCl, hlargerCl⟩
  by_cases hnil : p5 = []
  · rw [if_pos hnil] at hq
    left
    refine ⟨by rw [← hp5']; exact hnil, ?_⟩
    rw [Except.ok.injEq] at hq
    exact hq.symm
  · rw [if_neg hnil] at hq
    right
    refine ⟨by rw [← hp5']; exact hnil, ?_⟩
    rw [Except.ok.injEq] at hq
    rw [← hq, hp5']

/-- C9: `build_query` yields the universal query `"ALL"` exactly when every
filter field is absent; otherwise one clause per present filter, joined by a
single space, in the fixed order subject, sender, since, before, size. -/
theorem build_query_all_and_clause_order (now : Int) (c : SearchCriteria) :
    ((c.subject = none ∧ c.from_ = none ∧ c.since = none ∧ c.before = none ∧
      c.larger = none) ↔ build_query now c = .ok ("ALL".data)) ∧
    (∀ q, build_query now c = .ok q →
      ∃ subjCl fromCl sinceCl beforeCl largerCl : List Str,
        (subjCl ++ (fromCl ++ (sinceCl ++ (beforeCl ++ largerCl))) = [] ∧
          q = "ALL".data ∨
         subjCl ++ (fromCl ++ (sinceCl ++ (beforeCl ++ largerCl))) ≠ [] ∧
          q = List.intercalate [' ']
            (subjCl ++ (fromCl ++ (sinceCl ++ (beforeCl ++ largerCl))))) ∧
        (match c.subject with
         | some s => subjCl = [("SUBJECT ".data ++ imap_quote s)]
         | none => subjCl = []) ∧
        (match c.from_ with
         | some f => fromCl = [("FROM ".data ++ imap_quote f)]
         | none => fromCl = []) ∧
        (match c.since with
         | some s => ∃ d, parse_date now s = .ok d ∧ sinceCl = [("SINCE ".data ++ d)]
         | none => sinceCl = []) ∧
        (match c.before with
         | some s => ∃ d, parse_date now s = .ok d ∧ beforeCl = [("BEFORE ".data ++ d)]
         | none => beforeCl = []) ∧
        (match c.larger with
         | some s => ∃ b, parse_size s = .ok b ∧ largerCl = [("LARGER ".data ++ natDigits b)]
         | none => largerCl = [])) := by
  refine ⟨⟨?_, ?_⟩, build_query_characterize now c⟩
  · rintro ⟨h1, h2, hh3, hh4, hh5⟩
    rw [build_query]
    simp [sinceParts, beforeParts, largerParts, fromParts, subjectParts,
      h1, h2, hh3, hh4, hh5]
  · intro hq
    obtain ⟨sCl, fCl, siCl, bCl, lCl, hshape, hs, hf, hsi, hb, hl⟩ :=
      build_query_characterize now c _ hq
    rcases hshape with ⟨hempty, _⟩ | ⟨hne, hAll⟩
    · rw [List.append_eq_nil, List.append_eq_nil, List.append_eq_nil,
        List.append_eq_nil] at hempty
      obtain ⟨e1, e2, e3, e4, e5⟩ := hempty
      refine ⟨?_, ?_, ?_, ?_, ?_⟩
      · rcases hx : c.subject with _ | s
        · rfl
        · rw [hx] at hs
          simp only at hs
          rw [e1] at hs
          exact absurd hs (by simp)
      · rcases hx : c.from_ with _ | f
        · rfl
        · rw [hx] at hf
          simp only at hf
          rw [e2] at hf
          exact absurd hf (by simp)
      · rcases hx : c.since with _ | s
        · rfl
        · rw [hx] at hsi
          simp only at hsi
          obtain ⟨d, _, hcl⟩ := hsi
          rw [e3] at hcl
          exact absurd hcl (by simp)
      · rcases hx : c.before with _ | s
        · rfl
        · rw [hx] at hb
          simp only at hb
          obtain ⟨d, _, hcl⟩ := hb
          rw [e4] at hcl
          exact absurd hcl (by simp)
      · rcases hx : c.larger with _ | s
        · rfl
        · rw [hx] at hl
          simp only at hl
          obtain ⟨b, _, hcl⟩ := hl
          rw [e5] at hcl
          exact absurd hcl (by simp)
    · exfalso
      have hmemL : ∀ x ∈ sCl ++ (fCl ++ (siCl ++ (bCl ++ lCl))),
          x ≠ [] ∧ x.head? ≠ some 'A' := by
        intro x hx
        simp only [List.mem_append] at hx
        rcases hx with hx | hx | hx | hx | hx
        · rcases hy : c.subject with _ | s <;> rw [hy] at hs <;> simp only at hs
          · rw [hs] at hx; simp at hx
          · rw [hs] at hx
            simp at hx
            subst hx
            exact ⟨by simp, by simp⟩
        · rcases hy : c.from_ with _ | f <;> rw [hy] at hf <;> simp only at hf
          · rw [hf] at hx; simp at hx
          · rw [hf] at hx
            simp at hx
            subst hx
            exact ⟨by simp, by simp⟩
        · rcases hy : c.since with _ | s <;> rw [hy] at hsi <;> simp only at hsi
          · rw [hsi] at hx; simp at hx
          · obtain ⟨d, _, hcl⟩ := hsi
            rw [hcl] at hx
            simp at hx
            subst hx
            exact ⟨by simp, by simp⟩
        · rcases hy : c.before with _ | s <;> rw [hy] at hb <;> simp only at hb
          · rw [hb] at hx; simp at hx
          · obtain ⟨d, _, hcl⟩ := hb
            rw [hcl] at hx
            simp at hx
            subst hx
            exact ⟨by simp, by simp⟩
        · rcases hy : c.larger with _ | s <;> rw [hy] at hl <;> simp only at hl
          · rw [hl] at hx; simp at hx
          · obtain ⟨b, _, hcl⟩ := hl
            rw [hcl] at hx
            simp at hx
            subst hx
            exact ⟨by simp, by simp⟩
      rcases hL : sCl ++ (fCl ++ (siCl ++ (bCl ++ lCl))) with _ | ⟨p, rest⟩
      · exact hne hL
      · rw [hL] at hAll
        have hp := hmemL p (by rw [hL]; simp)
        have hhead := intercalate_head rest hp.1
        rw [← hAll] at hhead
        exact hp.2 hhead.symm

/-- All-absent criteria used to witness the universal query. -/
def emptyCriteria : SearchCriteria :=
  ⟨"INBOX".data, false, none, none, none, none, none, none⟩

theorem build_query_all_and_clause_order_witness :
    build_query 0 emptyCriteria = .ok ("ALL".data) :=
  (build_query_all_and_clause_order 0 emptyCriteria).1.1 ⟨rfl, rfl, rfl, rfl, rfl⟩

/-! ## Session model

The stateful IMAP session (`ImapSession` in `src/connection.rs`, a closed
variant over the plain and TLS transports with one capability surface) is
modelled as a record of response functions; the embedded operations return,
next to their result, the list of commands they issued, in order.  Header
parsing (the external `mailparse` crate) and UTF-8 decoding/line splitting
of raw responses are abstracted: fetch records carry the extracted
Subject/From/Date header values and the parsed date, and raw-command
responses are lists of lines. -/

inductive Cmd where
  | selectC (folder : Str)
  | raw (cmd : Str)
  | searchC (query : Str)
  | fetchC (uidSet query : Str)
  | listC (reference pattern : Str)
  | mvC (uidSet dest : Str)
  | copyC (uidSet dest : Str)
  | storeC (uidSet flags : Str)
  | expungeC
deriving DecidableEq

/-- One FETCH response record (header parsing abstracted, see above).
`size` is `fetch.size`, `dateParsed` is `mailparse::dateparse(&date)`. -/
structure FetchRec where
  uid : Option Nat
  size : Option Nat
  fromH : Str
  subjectH : Str
  dateH : Str
  dateParsed : Option Int
deriving DecidableEq

/-- `MessageRow` from `src/display.rs`. -/
structure MessageRow where
  uid : Nat
  folder : Option Str
  from_ : Str
  subject : Str
  date : Str
  timestamp : Int
  size : Nat
deriving DecidableEq

/-- The session collaborator: capabilities and per-command responses. -/
structure SessionModel where
  caps : Str → Bool
  selectR : Str → Except Str Unit
  runCmd : Str → Except Str (List Str)
  uidSearchR : Str → Except Str (List Nat)
  uidFetchR : Str → Str → Except Str (List FetchRec)
  listR : Str → Str → Except Str (List Str)
  mvR : Str → Str → Except Str Unit
  copyR : Str → Str → Except Str Unit
  storeR : Str → Str → Except Str Unit
  expungeR : Except Str Unit

/-- `anyhow` `.context(...)` formatting: `"context: cause"`. -/
def ctxMsg (ctx e : Str) : Str := ctx ++ ':' :: ' ' :: e

/-- `uid_move_or_fallback` from `src/connection.rs`. -/
def uid_move_or_fallback (m : SessionModel) (uidSet dest : Str) :
    Except Str Unit × List Cmd :=
  if m.caps ("MOVE".data) then
    match m.mvR uidSet dest with
    | .ok _ => (.ok (), [.mvC uidSet dest])
    | .error e => (.error (ctxMsg ("UID MOVE failed".data) e), [.mvC uidSet dest])
  else
    match m.copyR uidSet dest with
    | .error e => (.error (ctxMsg ("UID COPY failed".data) e), [.copyC uidSet dest])
    | .ok _ =>
      match m.storeR uidSet ("+FLAGS (\\Deleted)".data) with
      | .error e =>
        (.error (ctxMsg ("UID STORE +FLAGS failed".data) e),
         [.copyC uidSet dest, .storeC uidSet ("+FLAGS (\\Deleted)".data)])
      | .ok _ =>
        match m.expungeR with
        | .error e =>
          (.error (ctxMsg ("EXPUNGE failed".data) e),
           [.copyC uidSet dest, .storeC uidSet ("+FLAGS (\\Deleted)".data), .expungeC])
        | .ok _ =>
          (.ok (),
           [.copyC uidSet dest, .storeC uidSet ("+FLAGS (\\Deleted)".data), .expungeC])

/-! ### Search executor (`src/search.rs`) -/

/-- `truncate_str` from `src/search.rs`. -/
def truncate_str (s : Str) (max : Nat) : Str :=
  if s.length ≤ max then s else s.take (max - 3) ++ "...".data

/-- Embeds Rust `str::strip_prefix`. -/
def stripPrefixL : Str → Str → Option Str
  | [], s => some s
  | _ :: _, [] => none
  | p :: ps, c :: cs => if p = c then stripPrefixL ps cs else none

/-- Embeds Rust `str::find` with a string pattern (character index). -/
def findSubIdx (pat : Str) : Str → Option Nat
  | [] => if pat = [] then some 0 else none
  | c :: rest =>
    if (stripPrefixL pat (c :: rest)).isSome then some 0
    else (findSubIdx pat rest).map (· + 1)

/-- Embeds Rust `str::contains` with a string pattern. -/
def containsSub (pat s : Str) : Bool := (findSubIdx pat s).isSome

/-- Embeds Rust `str::split_whitespace`. -/
def splitWs (s : Str) : List Str :=
  (splitOnP (fun c => c.isWhitespace) s).filter (fun t => !t.isEmpty)

/-- The UTC-offset stripping in `fetch_messages`:
`date.find(" +").or_else(|| date.find(" -"))` then truncate. -/
def stripTzOffset (date : Str) : Str :=
  match findSubIdx (" +".data) date with
  | some pos => date.take pos
  | none =>
    match findSubIdx (" -".data) date with
    | some pos => date.take pos
    | none => date

/-- The loop of `parse_sort_response`: accumulates UIDs from `* SORT ` lines,
fails on a tagged `BAD`/`NO` line. -/
def parseSortLoop : List Str → List Nat → Bool → Except Str (List Nat × Bool)
  | [], uids, saw => .ok (uids, saw)
  | line :: rest, uids, saw =>
    let acc :=
      match stripPrefixL ("* SORT ".data) line with
      | some r => (uids ++ (splitWs r).filterMap rustParseU32, true)
      | none => (uids, saw)
    if (containsSub ("BAD".data) line || containsSub ("NO".data) line) &&
        !(line.head? == some '*') then
      .error ("SORT command rejected by server: ".data ++ line)
    else parseSortLoop rest acc.1 acc.2

/-- `parse_sort_response` from `src/search.rs`, on the decoded response
lines. -/
def parse_sort_response (lines : List Str) : Except Str (List Nat) :=
  match parseSortLoop lines [] false with
  | .error e => .error e
  | .ok (uids, saw) =>
    if !saw && !uids.isEmpty then .error ("Unexpected SORT response format".data)
    else .ok uids

/-- The raw ordered-search command text. -/
def sortCmdText (query : Str) : Str :=
  "UID SORT (REVERSE DATE) UTF-8 ".data ++ query

/-- `try_uid_sort` from `src/search.rs`: `.ok none` means "unsupported, fall
back"; a failed `run_command_and_read_response` only warns and falls back;
a parse failure is an error. -/
def try_uid_sort (m : SessionModel) (query : Str) :
    Except Str (Option (List Nat)) × List Cmd :=
  if !(m.caps ("SORT".data)) then (.ok none, [])
  else
    match m.runCmd (sortCmdText query) with
    | .ok lines =>
      (match parse_sort_response lines with
       | .ok uids => .ok (some uids)
       | .error e => .error e,
       [.raw (sortCmdText query)])
    | .error _ => (.ok none, [.raw (sortCmdText query)])

def FETCH_QUERY : Str :=
  "(UID FLAGS RFC822.SIZE BODY.PEEK[HEADER.FIELDS (Subject From Date)])".data

/-- Row assembly for one fetch record (the body of the fetch loop of
`fetch_messages`). -/
def rowOfRec (cleanFolder : Str) (includeFolder : Bool) (u : Nat) (r : FetchRec) :
    MessageRow :=
  { uid := u
    folder := if includeFolder then some cleanFolder else none
    from_ := truncate_str r.fromH 40
    subject := truncate_str r.subjectH 60
    date := stripTzOffset r.dateH
    timestamp := r.dateParsed.getD 0
    size := r.size.getD 0 }

/-- `HashMap::insert` keyed by UID (replace an existing entry, else append;
insertion order stands in for the map's unspecified iteration order). -/
def insertByUid (map : List (Nat × MessageRow)) (u : Nat) (row : MessageRow) :
    List (Nat × MessageRow) :=
  if map.any (fun p => p.1 == u) then
    map.map (fun p => if p.1 == u then (u, row) else p)
  else map ++ [(u, row)]

/-- Insert all records of one FETCH response (skipping missing/invalid
UIDs, which only warn). -/
def insertRecs (cleanFolder : Str) (includeFolder : Bool)
    (recs : List FetchRec) (map : List (Nat × MessageRow)) :
    List (Nat × MessageRow) :=
  recs.foldl (fun acc r =>
    match r.uid with
    | some u => if 0 < u then insertByUid acc u (rowOfRec cleanFolder includeFolder u r) else acc
    | none => acc) map

/-- The chunked FETCH loop of `fetch_messages`; the first failing chunk
aborts. -/
def fetchChunks (m : SessionModel) (cleanFolder : Str) (includeFolder : Bool) :
    List Str → List (Nat × MessageRow) →
    Except Str (List (Nat × MessageRow)) × List Cmd
  | [], map => (.ok map, [])
  | chunk :: rest, map =>
    match m.uidFetchR chunk FETCH_QUERY with
    | .error e => (.error (ctxMsg ("IMAP FETCH failed".data) e),
        [.fetchC chunk FETCH_QUERY])
    | .ok recs =>
      let next := fetchChunks m cleanFolder includeFolder rest
        (insertRecs cleanFolder includeFolder recs map)
      (next.1, .fetchC chunk FETCH_QUERY :: next.2)

/-- `HashMap::remove`-based reassembly in server-sort order
(`ordered_uids.into_iter().filter_map(|uid| by_uid.remove(&uid))`). -/
def assemblePreSorted (map : List (Nat × MessageRow)) :
    List Nat → List MessageRow
  | [] => []
  | u :: rest =>
    match map.find? (fun p => p.1 == u) with
    | some p => p.2 :: assemblePreSorted (map.eraseP (fun q => q.1 == u)) rest
    | none => assemblePreSorted map rest

/-- Stable insertion for the descending-timestamp sort
(`sort_by(|a, b| b.timestamp.cmp(&a.timestamp))`). -/
def insertDesc (x : MessageRow) : List MessageRow → List MessageRow
  | [] => [x]
  | y :: ys => if y.timestamp < x.timestamp then x :: y :: ys else y :: insertDesc x ys

def sortDescRows (l : List MessageRow) : List MessageRow := l.foldr insertDesc []

def takeLimit (limit : Option Nat) (l : List MessageRow) : List MessageRow :=
  match limit with
  | some n => l.take n
  | none => l

/-- `uids.truncate(n)` under an optional limit. -/
def takeLimitNat (limit : Option Nat) (l : List Nat) : List Nat :=
  match limit with
  | some n => l.take n
  | none => l

/-- `fetch_messages` from `src/search.rs`. -/
def fetch_messages (m : SessionModel) (folder query : Str)
    (includeFolder : Bool) (limit : Option Nat) :
    Except Str (List MessageRow) × List Cmd :=
  let cleanFolder := sanitize folder
  match m.selectR cleanFolder with
  | .error e =>
    (.error (ctxMsg ("Failed to select folder '".data ++ cleanFolder ++ ['\'']) e),
     [.selectC cleanFolder])
  | .ok _ =>
    let sortStep := try_uid_sort m query
    match sortStep.1 with
    | .error e => (.error e, .selectC cleanFolder :: sortStep.2)
    | .ok osorted =>
      let ordered : Except Str (List Nat × Bool) × List Cmd :=
        match osorted with
        | some uids => (.ok (takeLimitNat limit uids, true), [])
        | none =>
          match m.uidSearchR query with
          | .error e => (.error (ctxMsg ("IMAP SEARCH failed".data) e),
              [.searchC query])
          | .ok l => (.ok (sortNat l, false), [.searchC query])
      match ordered.1 with
      | .error e => (.error e, .selectC cleanFolder :: (sortStep.2 ++ ordered.2))
      | .ok (orderedUids, preSorted) =>
        if orderedUids = [] then
          (.ok [], .selectC cleanFolder :: (sortStep.2 ++ ordered.2))
        else
          let chunks := build_uid_set orderedUids
          let fetched := fetchChunks m cleanFolder includeFolder chunks []
          let trace := .selectC cleanFolder :: (sortStep.2 ++ ordered.2 ++ fetched.2)
          match fetched.1 with
          | .error e => (.error e, trace)
          | .ok map =>
            if preSorted then (.ok (assemblePreSorted map orderedUids), trace)
            else
              (.ok (takeLimit limit (sortDescRows (map.map Prod.snd))), trace)

/-- `folders_to_skip` from `src/search.rs` (denylist; Rust
`str::to_lowercase` modelled per character). -/
def folders_to_skip (name : Str) : Bool :=
  let lower := name.map Char.toLower
  lower == "trash".data || lower == "spam".data || lower == "junk".data ||
    containsSub ("all mail".data) lower ||
    lower == "[gmail]/all mail".data || lower == "[gmail]/spam".data ||
    lower == "[gmail]/trash".data

/-- The per-folder loop of `search`'s cross-mailbox branch: a failing folder
only warns and its rows are dropped. -/
def searchFolders (m : SessionModel) (query : Str) :
    List Str → List MessageRow × List Cmd
  | [] => ([], [])
  | f :: rest =>
    let r := fetch_messages m f query true none
    let next := searchFolders m query rest
    match r.1 with
    | .ok ms => (ms ++ next.1, r.2 ++ next.2)
    | .error _ => (next.1, r.2 ++ next.2)

/-- `search` from `src/search.rs` (with `ensure_folder_exists` inlined in
the single-mailbox branch). -/
def search (m : SessionModel) (now : Int) (c : SearchCriteria) :
    Except Str (List MessageRow) × List Cmd :=
  match build_query now c with
  | .error e => (.error e, [])
  | .ok query =>
    if c.all_folders then
      match m.listR [] ("*".data) with
      | .error e => (.error (ctxMsg ("Failed to list folders".data) e),
          [.listC [] ("*".data)])
      | .ok folders =>
        let folderNames := folders.filter (fun n => !folders_to_skip n)
        let gathered := searchFolders m query folderNames
        (.ok (takeLimit c.limit (sortDescRows gathered.1)),
         .listC [] ("*".data) :: gathered.2)
    else
      match m.listR [] ("*".data) with
      | .error e => (.error (ctxMsg ("Failed to list folders".data) e),
          [.listC [] ("*".data)])
      | .ok folders =>
        if folders.contains c.folder then
          let r := fetch_messages m c.folder query false c.limit
          (r.1, .listC [] ("*".data) :: r.2)
        else
          (.error ("Folder '".data ++ c.folder ++
            "' does not exist. Use `slashmail status` to list available folders.".data),
           [.listC [] ("*".data)])

/-- C3: without the MOVE capability, `uid_move_or_fallback` issues exactly
copy, store of `+FLAGS (\Deleted)`, expunge, in that order, aborting at the
first failing step with its error and without undoing completed steps; with
MOVE it issues `UID MOVE` alone and reports its rejection without fallback. -/
theorem uid_move_or_fallback_steps (m : SessionModel) (u d : Str) :
    (m.caps ("MOVE".data) = false →
      ((∀ e, m.copyR u d = .error e →
        uid_move_or_fallback m u d =
          (.error (ctxMsg ("UID COPY failed".data) e), [.copyC u d])) ∧
       (∀ e, m.copyR u d = .ok () →
        m.storeR u ("+FLAGS (\\Deleted)".data) = .error e →
        uid_move_or_fallback m u d =
          (.error (ctxMsg ("UID STORE +FLAGS failed".data) e),
           [.copyC u d, .storeC u ("+FLAGS (\\Deleted)".data)])) ∧
       (∀ e, m.copyR u d = .ok () →
        m.storeR u ("+FLAGS (\\Deleted)".data) = .ok () →
        m.expungeR = .error e →
        uid_move_or_fallback m u d =
          (.error (ctxMsg ("EXPUNGE failed".data) e),
           [.copyC u d, .storeC u ("+FLAGS (\\Deleted)".data), .expungeC])) ∧
       (m.copyR u d = .ok () →
        m.storeR u ("+FLAGS (\\Deleted)".data) = .ok () →
        m.expungeR = .ok () →
        uid_move_or_fallback m u d =
          (.ok (), [.copyC u d, .storeC u ("+FLAGS (\\Deleted)".data), .expungeC])))) ∧
    (m.caps ("MOVE".data) = true →
      (uid_move_or_fallback m u d).2 = [.mvC u d] ∧
      (m.mvR u d = .ok () → uid_move_or_fallback m u d = (.ok (), [.mvC u d])) ∧
      (∀ e, m.mvR u d = .error e →
        uid_move_or_fallback m u d =
          (.error (ctxMsg ("UID MOVE failed".data) e), [.mvC u d]))) := by
  constructor
  · intro hcap
    refine ⟨?_, ?_, ?_, ?_⟩
    · intro e hcopy
      simp [uid_move_or_fallback, hcap, hcopy]
    · intro e hcopy hstore
      simp [uid_move_or_fallback, hcap, hcopy, hstore]
    · intro e hcopy hstore hexp
      simp [uid_move_or_fallback, hcap, hcopy, hstore, hexp]
    · intro hcopy hstore hexp
      simp [uid_move_or_fallback, hcap, hcopy, hstore, hexp]
  · intro hcap
    refine ⟨?_, ?_, ?_⟩
    · rcases hmv : m.mvR u d with e | v
      · simp [uid_move_or_fallback, hcap, hmv]
      · simp [uid_move_or_fallback, hcap, hmv]
    · intro hmv
      simp [uid_move_or_fallback, hcap, hmv]
    · intro e hmv
      simp [uid_move_or_fallback, hcap, hmv]

/-- Concrete session model for witnesses: no capabilities, raw commands
rejected, two matching messages, mutations succeed. -/
def wModel : SessionModel :=
  { caps := fun _ => false
    selectR := fun _ => .ok ()
    runCmd := fun _ => .error ("rejected".data)
    uidSearchR := fun _ => .ok [2, 1]
    uidFetchR := fun _ _ => .ok
      [⟨some 1, some 10, "a".data, "s".data, "d".data, some 5⟩,
       ⟨some 2, some 20, "b".data, "t".data, "e".data, some 9⟩]
    listR := fun _ _ => .ok ["INBOX".data, "Trash".data]
    mvR := fun _ _ => .ok ()
    copyR := fun _ _ => .ok ()
    storeR := fun _ _ => .ok ()
    expungeR := .ok () }

theorem uid_move_or_fallback_steps_witness :
    wModel.caps ("MOVE".data) = false ∧
    uid_move_or_fallback wModel ("1:3".data) ("Trash".data) =
      (.ok (), [.copyC ("1:3".data) ("Trash".data),
        .storeC ("1:3".data) ("+FLAGS (\\Deleted)".data), .expungeC]) :=
  ⟨rfl, ((uid_move_or_fallback_steps wModel ("1:3".data) ("Trash".data)).1
    rfl).2.2.2 rfl rfl rfl⟩

/-! ### Row-sorting lemmas -/

theorem mem_insertDesc {x y : MessageRow} {l : List MessageRow} :
    y ∈ insertDesc x l ↔ y = x ∨ y ∈ l := by
  induction l with
  | nil => simp [insertDesc]
  | cons z zs ih =>
    by_cases h : z.timestamp < x.timestamp
    · simp [insertDesc, h]
    · simp only [insertDesc, if_neg h, List.mem_cons, ih]
      tauto

theorem sorted_insertDesc {x : MessageRow} {l : List MessageRow}
    (h : l.Sorted (fun a b => b.timestamp ≤ a.timestamp)) :
    (insertDesc x l).Sorted (fun a b => b.timestamp ≤ a.timestamp) := by
  induction l with
  | nil => simp [insertDesc]
  | cons z zs ih =>
    rcases List.sorted_cons.1 h with ⟨hz, hzs⟩
    by_cases hlt : z.timestamp < x.timestamp
    · rw [insertDesc, if_pos hlt]
      refine List.sorted_cons.2 ⟨?_, h⟩
      intro b hb
      rcases List.mem_cons.1 hb with h1 | h1
      · subst h1; omega
      · have := hz b h1; omega
    · rw [insertDesc, if_neg hlt]
      refine List.sorted_cons.2 ⟨?_, ih hzs⟩
      intro b hb
      rcases mem_insertDesc.1 hb with h1 | h1
      · subst h1; omega
      · exact hz b h1

theorem sorted_sortDescRows (l : List MessageRow) :
    (sortDescRows l).Sorted (fun a b => b.timestamp ≤ a.timestamp) := by
  induction l with
  | nil => simp [sortDescRows]
  | cons x xs ih => exact sorted_insertDesc ih

theorem mem_sortDescRows {x : MessageRow} {l : List MessageRow} :
    x ∈ sortDescRows l ↔ x ∈ l := by
  induction l with
  | nil => simp [sortDescRows]
  | cons y ys ih =>
    show x ∈ insertDesc y (sortDescRows ys) ↔ _
    rw [mem_insertDesc]
    simp [ih]

theorem sorted_takeLimit {limit : Option Nat} {l : List MessageRow}
    (h : l.Sorted (fun a b => b.timestamp ≤ a.timestamp)) :
    (takeLimit limit l).Sorted (fun a b => b.timestamp ≤ a.timestamp) := by
  rcases limit with _ | n
  · exact h
  · exact h.sublist (List.take_sublist n l)

theorem mem_takeLimit {limit : Option Nat} {x : MessageRow} {l : List MessageRow}
    (h : x ∈ takeLimit limit l) : x ∈ l := by
  rcases limit with _ | n
  · exact h
  · exact (List.take_sublist n l).subset h

theorem fetchChunks_ok (m : SessionModel) (cf : Str) (incl : Bool)
    (hf : ∀ s q, ∃ r, m.uidFetchR s q = .ok r) :
    ∀ (chunks : List Str) (map : List (Nat × MessageRow)),
      ∃ map', fetchChunks m cf incl chunks map =
        (.ok map', chunks.map (fun ch => Cmd.fetchC ch FETCH_QUERY)) := by
  intro chunks
  induction chunks with
  | nil => intro map; exact ⟨map, rfl⟩
  | cons ch rest ih =>
    intro map
    obtain ⟨recs, hrec⟩ := hf ch FETCH_QUERY
    obtain ⟨map', hmap'⟩ := ih (insertRecs cf incl recs map)
    exact ⟨map', by simp [fetchChunks, hrec, hmap']⟩

/-- C4: without the SORT capability, or when the ordered-search command is
refused or rejected by the server (surfaced as a failed raw command, as
opposed to a response parse failure), the executor falls back to the
unordered search (the SEARCH command is issued) and sorts client-side by
descending timestamp, without raising an error. -/
theorem sort_fallback_soft (m : SessionModel) (query : Str)
    (h : m.caps ("SORT".data) = false ∨
      ∃ e, m.runCmd (sortCmdText query) = .error e) :
    (try_uid_sort m query).1 = .ok none ∧
    (∀ (folder : Str) (includeFolder : Bool) (limit : Option Nat) (l : List Nat),
      m.selectR (sanitize folder) = .ok () →
      m.uidSearchR query = .ok l →
      (∀ uidSet fquery, ∃ recs, m.uidFetchR uidSet fquery = .ok recs) →
      Cmd.searchC query ∈ (fetch_messages m folder query includeFolder limit).2 ∧
      ∃ rows, (fetch_messages m folder query includeFolder limit).1 = .ok rows ∧
        rows.Sorted (fun a b => b.timestamp ≤ a.timestamp)) := by
  have h1 : (try_uid_sort m query).1 = .ok none := by
    rcases h with hcap | ⟨e, herr⟩
    · rw [try_uid_sort]
      simp [hcap]
    · rw [try_uid_sort]
      by_cases hcap : m.caps ("SORT".data)
      · simp [hcap, herr]
      · simp [hcap]
  refine ⟨h1, ?_⟩
  intro folder includeFolder limit l hsel hsearch hfetch
  rw [fetch_messages]
  simp only [hsel, h1, hsearch]
  by_cases hnil : sortNat l = []
  · simp only [hnil, reduceIte]
    constructor
    · simp
    · exact ⟨[], rfl, by simp⟩
  · rw [if_neg hnil]
    obtain ⟨map', hmap'⟩ := fetchChunks_ok m (sanitize folder) includeFolder hfetch
      (build_uid_set (sortNat l)) []
    simp only [hmap']
    constructor
    · simp
    · exact ⟨takeLimit limit (sortDescRows (map'.map Prod.snd)), rfl,
        sorted_takeLimit (sorted_sortDescRows _)⟩

theorem sort_fallback_soft_witness :
    (wModel.caps ("SORT".data) = false ∨
      ∃ e, wModel.runCmd (sortCmdText ("ALL".data)) = .error e) ∧
    (try_uid_sort wModel ("ALL".data)).1 = .ok none ∧
    (Cmd.searchC ("ALL".data) ∈
      (fetch_messages wModel ("INBOX".data) ("ALL".data) false none).2 ∧
     ∃ rows, (fetch_messages wModel ("INBOX".data) ("ALL".data) false none).1 =
        .ok rows ∧ rows.Sorted (fun a b => b.timestamp ≤ a.timestamp)) :=
  ⟨Or.inl rfl, (sort_fallback_soft wModel ("ALL".data) (Or.inl rfl)).1,
   (sort_fallback_soft wModel ("ALL".data) (Or.inl rfl)).2 ("INBOX".data)
     false none [2, 1] rfl rfl (fun _ _ => ⟨_, rfl⟩)⟩

/-- The rows gathered by the cross-mailbox loop: the concatenation of the
rows of every folder whose fetch succeeded, in enumeration order. -/
def okRows (m : SessionModel) (query f : Str) : List MessageRow :=
  match (fetch_messages m f query true none).1 with
  | .ok ms => ms
  | .error _ => []

theorem searchFolders_rows (m : SessionModel) (query : Str) :
    ∀ fs : List Str, (searchFolders m query fs).1 = fs.flatMap (okRows m query) := by
  intro fs
  induction fs with
  | nil => simp [searchFolders]
  | cons f rest ih =>
    rw [searchFolders]
    rcases hr : (fetch_messages m f query true none).1 with e | ms <;>
      simp [okRows, hr, ih]

/-- C5: the cross-mailbox search excludes denylisted mailboxes, tolerates
per-mailbox failures (their rows are simply absent; the others' rows are
kept), and sorts the merged rows by descending timestamp with the
result-count limit applied once, globally. -/
theorem search_cross_mailbox (m : SessionModel) (now : Int) (c : SearchCriteria)
    (query : Str) (folders : List Str)
    (hall : c.all_folders = true)
    (hq : build_query now c = .ok query)
    (hl : m.listR [] ("*".data) = .ok folders) :
    (search m now c).1 =
      .ok (takeLimit c.limit (sortDescRows
        ((folders.filter (fun n => !folders_to_skip n)).flatMap (okRows m query)))) ∧
    (∀ rows, (search m now c).1 = .ok rows →
      rows.Sorted (fun a b => b.timestamp ≤ a.timestamp)) := by
  have hmain : (search m now c).1 =
      .ok (takeLimit c.limit (sortDescRows
        ((folders.filter (fun n => !folders_to_skip n)).flatMap (okRows m query)))) := by
    rw [search]
    simp only [hq, hall, hl, if_pos, searchFolders_rows]
  refine ⟨hmain, ?_⟩
  intro rows hrows
  rw [hmain, Except.ok.injEq] at hrows
  rw [← hrows]
  exact sorted_takeLimit (sorted_sortDescRows _)

/-- Criteria for the cross-mailbox witness. -/
def wCrossCriteria : SearchCriteria :=
  ⟨"INBOX".data, true, none, none, none, none, none, none⟩

theorem search_cross_mailbox_witness :
    wCrossCriteria.all_folders = true ∧
    (search wModel 0 wCrossCriteria).1 =
      .ok (takeLimit wCrossCriteria.limit (sortDescRows
        ((["INBOX".data, "Trash".data].filter
          (fun n => !folders_to_skip n)).flatMap (okRows wModel ("ALL".data))))) :=
  ⟨rfl, (search_cross_mailbox wModel 0 wCrossCriteria ("ALL".data)
    ["INBOX".data, "Trash".data] rfl rfl rfl).1⟩

/-! ### Invariants of the UID-keyed row map -/

theorem insertByUid_prop {P : MessageRow → Prop} {map : List (Nat × MessageRow)}
    {u : Nat} {row : MessageRow} (hmap : ∀ p ∈ map, P p.2) (hrow : P row) :
    ∀ p ∈ insertByUid map u row, P p.2 := by
  intro p hp
  rw [insertByUid] at hp
  by_cases hc : map.any (fun p => p.1 == u)
  · rw [if_pos hc] at hp
    rcases List.mem_map.1 hp with ⟨p0, hp0, hpe⟩
    by_cases h0 : p0.1 == u
    · rw [if_pos h0] at hpe
      rw [← hpe]
      exact hrow
    · rw [if_neg h0] at hpe
      rw [← hpe]
      exact hmap p0 hp0
  · rw [if_neg hc] at hp
    rcases List.mem_append.1 hp with h1 | h1
    · exact hmap p h1
    · simp at h1
      rw [h1]
      exact hrow

theorem insertRecs_prop {P : MessageRow → Prop} {cf : Str} {incl : Bool}
    (hre : ∀ u r, P (rowOfRec cf incl u r)) :
    ∀ (recs : List FetchRec) (map : List (Nat × MessageRow)),
      (∀ p ∈ map, P p.2) → ∀ p ∈ insertRecs cf incl recs map, P p.2 := by
  intro recs
  induction recs with
  | nil => intro map hmap; exact hmap
  | cons r rest ih =>
    intro map hmap
    show ∀ p ∈ insertRecs cf incl rest
      (match r.uid with
       | some u => if 0 < u then insertByUid map u (rowOfRec cf incl u r) else map
       | none => map), P p.2
    refine ih _ ?_
    rcases r.uid with _ | u
    · exact hmap
    · by_cases hu : 0 < u
      · simp only [if_pos hu]
        exact insertByUid_prop hmap (hre u r)
      · simp only [if_neg hu]
        exact hmap

theorem fetchChunks_prop {P : MessageRow → Prop} {m : SessionModel} {cf : Str}
    {incl : Bool} (hre : ∀ u r, P (rowOfRec cf incl u r)) :
    ∀ (chunks : List Str) (map map' : List (Nat × MessageRow)),
      (∀ p ∈ map, P p.2) →
      (fetchChunks m cf incl chunks map).1 = .ok map' →
      ∀ p ∈ map', P p.2 := by
  intro chunks
  induction chunks with
  | nil =>
    intro map map' hmap hok
    simp only [fetchChunks, Except.ok.injEq] at hok
    rw [← hok]
    exact hmap
  | cons ch rest ih =>
    intro map map' hmap hok
    rw [fetchChunks] at hok
    rcases hf : m.uidFetchR ch FETCH_QUERY with e | recs <;> simp only [hf] at hok
    · exact absurd hok (by simp)
    · exact ih _ _ (insertRecs_prop hre recs map hmap) hok

theorem assemblePreSorted_prop {P : MessageRow → Prop} :
    ∀ (uids : List Nat) (map : List (Nat × MessageRow)),
      (∀ p ∈ map, P p.2) → ∀ r ∈ assemblePreSorted map uids, P r := by
  intro uids
  induction uids with
  | nil => intro map _ r hr; simp [assemblePreSorted] at hr
  | cons u rest ih =>
    intro map hmap r hr
    rw [assemblePreSorted] at hr
    rcases hfind : map.find? (fun p => p.1 == u) with _ | p <;>
      simp only [hfind] at hr
    · exact ih map hmap r hr
    · rcases List.mem_cons.1 hr with h1 | h1
      · rw [h1]
        exact hmap p (List.mem_of_find?_eq_some hfind)
      · exact ih _ (fun q hq => hmap q ((List.eraseP_sublist _).subset hq)) r h1

/-- C10: `fetch_messages` sanitizes the mailbox name before selection: the
first issued command is SELECT of `sanitize folder`, that name contains no
control characters, and the folder label attached to each resulting row is
exactly the sanitized name (when labels are requested). -/
theorem fetch_messages_select_sanitized (m : SessionModel)
    (folder query : Str) (includeFolder : Bool) (limit : Option Nat) :
    (fetch_messages m folder query includeFolder limit).2.head? =
      some (.selectC (sanitize folder)) ∧
    (∀ c ∈ sanitize folder, isControlChar c = false) ∧
    (∀ rows, (fetch_messages m folder query includeFolder limit).1 = .ok rows →
      ∀ r ∈ rows, r.folder =
        if includeFolder then some (sanitize folder) else none) := by
  have hctl : ∀ c ∈ sanitize folder, isControlChar c = false :=
    fun c hc => sanitize_not_control hc
  have hre : ∀ (u : Nat) (r : FetchRec),
      (rowOfRec (sanitize folder) includeFolder u r).folder =
        if includeFolder then some (sanitize folder) else none :=
    fun u r => rfl
  rw [fetch_messages]
  rcases hsel : m.selectR (sanitize folder) with e | v <;> simp only [hsel]
  · exact ⟨rfl, hctl, fun rows h => absurd h (by simp)⟩
  · rcases hts : (try_uid_sort m query).1 with e | os <;> simp only [hts]
    · exact ⟨rfl, hctl, fun rows h => absurd h (by simp)⟩
    · rcases os with _ | uids <;> simp only []
      · rcases hus : m.uidSearchR query with e | l <;> simp only [hus]
        · exact ⟨rfl, hctl, fun rows h => absurd h (by simp)⟩
        · by_cases hnil : sortNat l = []
          · simp only [hnil, reduceIte]
            exact ⟨rfl, hctl, fun rows h => by
              rw [Except.ok.injEq] at h
              rw [← h]
              intro r hr
              simp at hr⟩
          · rw [if_neg hnil]
            rcases hfc : (fetchChunks m (sanitize folder) includeFolder
                (build_uid_set (sortNat l)) []).1 with e | map <;> simp only [hfc]
            · exact ⟨rfl, hctl, fun rows h => absurd h (by simp)⟩
            · refine ⟨rfl, hctl, fun rows h => ?_⟩
              have h2 : Except.ok (ε := Str)
                  (takeLimit limit (sortDescRows (map.map Prod.snd))) =
                  Except.ok rows := h
              rw [Except.ok.injEq] at h2
              intro r hr
              rw [← h2] at hr
              have hr2 := mem_sortDescRows.1 (mem_takeLimit hr)
              rcases List.mem_map.1 hr2 with ⟨p, hp, hpe⟩
              rw [← hpe]
              exact fetchChunks_prop (P := fun row => row.folder =
                if includeFolder then some (sanitize folder) else none)
                hre _ [] map (by simp) hfc p hp
      · by_cases hnil : takeLimitNat limit uids = []
        · simp only [hnil, reduceIte]
          exact ⟨rfl, hctl, fun rows h => by
            rw [Except.ok.injEq] at h
            rw [← h]
            intro r hr
            simp at hr⟩
        · rw [if_neg hnil]
          rcases hfc : (fetchChunks m (sanitize folder) includeFolder
              (build_uid_set (takeLimitNat limit uids)) []).1 with e | map <;>
            simp only [hfc]
          · exact ⟨rfl, hctl, fun rows h => absurd h (by simp)⟩
          · refine ⟨rfl, hctl, fun rows h => ?_⟩
            have h2 : Except.ok (ε := Str)
                (assemblePreSorted map (takeLimitNat limit uids)) =
                Except.ok rows := h
            rw [Except.ok.injEq] at h2
            intro r hr
            rw [← h2] at hr
            exact assemblePreSorted_prop (P := fun row => row.folder =
                if includeFolder then some (sanitize folder) else none) _ map
              (fetchChunks_prop (P := fun row => row.folder =
                if includeFolder then some (sanitize folder) else none)
                hre _ [] map (by simp) hfc) r hr

/-- Model with no matching messages, for the C10 witness. -/
def wEmptyModel : SessionModel :=
  { wModel with uidSearchR := fun _ => .ok [] }

theorem fetch_messages_select_sanitized_witness :
    (fetch_messages wEmptyModel ("IN\nBOX".data) ("ALL".data) false none).2.head? =
      some (.selectC (sanitize ("IN\nBOX".data))) ∧
    (fetch_messages wEmptyModel ("IN\nBOX".data) ("ALL".data) false none).1 =
      .ok [] ∧
    (∀ r ∈ ([] : List MessageRow),
      r.folder = if false then some (sanitize ("IN\nBOX".data)) else none) :=
  ⟨(fetch_messages_select_sanitized wEmptyModel ("IN\nBOX".data) ("ALL".data)
      false none).1,
   rfl,
   (fetch_messages_select_sanitized wEmptyModel ("IN\nBOX".data) ("ALL".data)
      false none).2.2 [] rfl⟩

/-! ### Invalid date strings (C8) -/

theorem parseDigitsAux_all_digits :
    ∀ (l : Str) (acc : Nat), (∀ c ∈ l, (digitVal? c).isSome) →
      ∃ v, parseDigitsAux l acc = some v := by
  intro l
  induction l with
  | nil => intro acc _; exact ⟨acc, rfl⟩
  | cons c t ih =>
    intro acc h
    rcases hd : digitVal? c with _ | d
    · have := h c (by simp)
      rw [hd] at this
      simp at this
    · rw [parseDigitsAux, hd]
      exact ih _ (fun x hx => h x (by simp [hx]))

theorem parseDigits_all_digits {l : Str} (hne : l ≠ [])
    (h : ∀ c ∈ l, (digitVal? c).isSome) : ∃ v, parseDigits l = some v := by
  rcases l with _ | ⟨c, t⟩
  · exact absurd rfl hne
  · exact parseDigitsAux_all_digits (c :: t) 0 h

theorem isoMatch_inv {s ys ms ds : Str} (h : isoMatch s = some (ys, ms, ds)) :
    ys ≠ [] ∧ ms ≠ [] ∧ ds ≠ [] ∧
    (∀ c ∈ ys, (digitVal? c).isSome) ∧ (∀ c ∈ ms, (digitVal? c).isSome) ∧
    (∀ c ∈ ds, (digitVal? c).isSome) := by
  rcases s with _ | ⟨a1, _ | ⟨a2, _ | ⟨a3, _ | ⟨a4, _ | ⟨a5, _ | ⟨a6, _ | ⟨a7,
    _ | ⟨a8, _ | ⟨a9, _ | ⟨a10, _ | ⟨a11, t⟩⟩⟩⟩⟩⟩⟩⟩⟩⟩⟩ <;>
    try (exfalso; revert h; simp [isoMatch]; done)
  simp only [isoMatch] at h
  by_cases hc : a5 = '-' ∧ a8 = '-' ∧
      ([a1, a2, a3, a4, a6, a7, a9, a10].all (fun c => (digitVal? c).isSome))
  · rw [if_pos hc] at h
    rw [Option.some.injEq, Prod.mk.injEq, Prod.mk.injEq] at h
    obtain ⟨hys, hms, hds⟩ := h
    subst hys
    subst hms
    subst hds
    obtain ⟨_, _, hall⟩ := hc
    rw [List.all_eq_true] at hall
    refine ⟨by simp, by simp, by simp, ?_, ?_, ?_⟩ <;> intro c hcm <;>
      simp only [List.mem_cons, List.not_mem_nil, or_false] at hcm
    · rcases hcm with rfl | rfl | rfl | rfl <;> exact hall _ (by simp)
    · rcases hcm with rfl | rfl <;> exact hall _ (by simp)
    · rcases hcm with rfl | rfl <;> exact hall _ (by simp)
  · rw [if_neg hc] at h
    exact absurd h (by simp)

/-- C8: every invalid date string — wrong shape (neither grammar), month or
day out of range, unknown unit, or non-numeric count — makes `parse_date`
fail with an error whose message contains the offending input and the
accepted `YYYY-MM-DD` grammar, and `search` with such a criterion fails
without issuing a single command. -/
theorem parse_date_invalid_rejected (now : Int) (s : Str)
    (h : relMatch s = none ∧
      (isoMatch s = none ∨
       ∃ ys ms ds, isoMatch s = some (ys, ms, ds) ∧
         ∀ mo dy, parseDigits ms = some mo → parseDigits ds = some dy →
           ¬(1 ≤ mo ∧ mo ≤ 12 ∧ 1 ≤ dy ∧ dy ≤ 31))) :
    (∃ msg, parse_date now s = .error msg ∧
      (∃ pre post, pre ++ (s ++ post) = msg) ∧
      (∃ pre post, pre ++ ("expected YYYY-MM-DD".data ++ post) = msg)) ∧
    (∀ (m : SessionModel) (c : SearchCriteria),
      (c.since = some s ∨ c.before = some s) →
      (∃ e, (search m now c).1 = .error e) ∧ (search m now c).2 = []) := by
  obtain ⟨hrel, hiso⟩ := h
  have hresolve : resolve_relative_date now s = none := by
    rw [resolve_relative_date, hrel]
  have hpd : ∃ msg, parse_date now s = .error msg ∧
      (∃ pre post, pre ++ (s ++ post) = msg) ∧
      (∃ pre post, pre ++ ("expected YYYY-MM-DD".data ++ post) = msg) := by
    rcases hiso with hnone | ⟨ys, ms, ds, hsome, hbad⟩
    · refine ⟨"Invalid date '".data ++
        (s ++ "' (expected YYYY-MM-DD or relative like 7d, 2w, 3m, 1y)".data),
        ?_, ?_, ?_⟩
      · rw [parse_date, hresolve, hnone]
        rfl
      · exact ⟨"Invalid date '".data,
          "' (expected YYYY-MM-DD or relative like 7d, 2w, 3m, 1y)".data, rfl⟩
      · exact ⟨"Invalid date '".data ++ (s ++ "' (".data),
          " or relative like 7d, 2w, 3m, 1y)".data, by simp⟩
    · obtain ⟨hys, hms, hds, hysd, hmsd, hdsd⟩ := isoMatch_inv hsome
      obtain ⟨y, hy⟩ := parseDigits_all_digits hys hysd
      obtain ⟨mo, hmo⟩ := parseDigits_all_digits hms hmsd
      obtain ⟨dy, hdy⟩ := parseDigits_all_digits hds hdsd
      have hbad' := hbad mo dy hmo hdy
      have hfmt : format_imap_date dy mo (y : Int) =
          .error ("Invalid computed date: ".data ++ intDigits (y : Int) ++
            '-' :: (pad2 mo ++ '-' :: pad2 dy)) := by
        rw [format_imap_date, if_pos (by omega)]
      refine ⟨"Invalid date '".data ++
        (s ++ "' (expected YYYY-MM-DD, e.g. 2025-01-31)".data), ?_, ?_, ?_⟩
      · rw [parse_date, hresolve]
        simp only [hsome, hy, hmo, hdy, hfmt]
        rfl
      · exact ⟨"Invalid date '".data,
          "' (expected YYYY-MM-DD, e.g. 2025-01-31)".data, rfl⟩
      · exact ⟨"Invalid date '".data ++ (s ++ "' (".data),
          ", e.g. 2025-01-31)".data, by simp⟩
  refine ⟨hpd, ?_⟩
  obtain ⟨msg, hmsg, _, _⟩ := hpd
  intro m c hc
  have hbq : ∃ e, build_query now c = .error e := by
    rcases hc with hsince | hbefore
    · rcases h3 : sinceParts now c (fromParts c (subjectParts c)) with e | p3
      · exact ⟨e, by rw [build_query]; simp only [h3]⟩
      · exfalso
        simp only [sinceParts, hsince, hmsg, Except.map] at h3
        exact absurd h3 (by simp)
    · rcases h3 : sinceParts now c (fromParts c (subjectParts c)) with e | p3
      · exact ⟨e, by rw [build_query]; simp only [h3]⟩
      · rcases h4 : beforeParts now c p3 with e | p4
        · exact ⟨e, by rw [build_query]; simp only [h3, h4]⟩
        · exfalso
          simp only [beforeParts, hbefore, hmsg, Except.map] at h4
          exact absurd h4 (by simp)
  obtain ⟨e, he⟩ := hbq
  exact ⟨⟨e, by rw [search]; simp only [he]⟩, by rw [search]; simp only [he]⟩

theorem parse_date_invalid_rejected_witness :
    (∃ msg, parse_date 0 ("nope".data) = .error msg ∧
      (∃ pre post, pre ++ ("nope".data ++ post) = msg) ∧
      (∃ pre post, pre ++ ("expected YYYY-MM-DD".data ++ post) = msg)) ∧
    (∀ (m : SessionModel) (c : SearchCriteria),
      (c.since = some ("nope".data) ∨ c.before = some ("nope".data)) →
      (∃ e, (search m 0 c).1 = .error e) ∧ (search m 0 c).2 = []) :=
  parse_date_invalid_rejected 0 ("nope".data) ⟨rfl, Or.inl rfl⟩

end Slashmail
